import Mathlib

/-! # Verification of the Mini-Compiler pipeline

Shallow embedding of `src/21201181.py`: a lexer (`tokenize`), a
recursive-descent parser (`Parser` / `parse`), a three-address-code
generator (`generate_TAC` with the process-global counter `temp_count`
made an explicit argument), a pseudo-assembly generator (`generate_ASM`),
and the interpreter loop at the end of `main` (`run`).

Python strings are modelled as `List Char` (`Str`); Python exceptions as
`Except` with one constructor per exception class that can occur.  The
parser's unbounded recursion is modelled with a fuel parameter so that all
definitions are structural and compute by `rfl`/`decide`; a fuel-adequacy
lemma shows the chosen fuel is never exhausted, mirroring the fact that
the Python parser terminates.
-/

/-- Decidable equality for `Except`, so concrete pipeline results can be
settled with `decide`. -/
instance {ε α : Type} [DecidableEq ε] [DecidableEq α] : DecidableEq (Except ε α) := by
  intro a b
  cases a <;> cases b
  case error.error x y =>
    exact if h : x = y then .isTrue (by rw [h]) else .isFalse (by intro hh; cases hh; exact h rfl)
  case ok.ok x y =>
    exact if h : x = y then .isTrue (by rw [h]) else .isFalse (by intro hh; cases hh; exact h rfl)
  case error.ok x y => exact .isFalse (by intro hh; cases hh)
  case ok.error x y => exact .isFalse (by intro hh; cases hh)

/-- Python strings, modelled as lists of characters. -/
abbrev Str := List Char

/-- Shorthand turning a Lean string literal into a `Str`. -/
def str (s : String) : Str := s.data

/-! ## Decimal rendering (Python's `str(int)` for non-negative values)

`generate_TAC` renders the integer stored in a `("num", n)` AST node with
`str(expr[1])`; the parser only creates non-negative values (`int(tok)` of
a digit token), so a `Nat` renderer suffices. -/
/-- Fuel-driven helper for `natToStr`; fuel `n + 1` is always enough. -/
def natToStrAux : Nat → Nat → Str
  | 0, _ => []
  | fuel + 1, n =>
    if n < 10 then [Char.ofNat (48 + n)]
    else natToStrAux fuel (n / 10) ++ [Char.ofNat (48 + n % 10)]

/-- Python's `str(n)` for a natural number. -/
def natToStr (n : Nat) : Str := natToStrAux (n + 1) n

/-- Python's `int(tok)` on a digit string. -/
def strToNat (s : Str) : Nat :=
  s.foldl (fun acc c => 10 * acc + (c.toNat - 48)) 0

/-! ## Character classes (ASCII fragment of Python's `re` classes) -/
/-- Character class `[A-Za-z_]`: the characters that may start an identifier. -/
def isIdentStart (c : Char) : Bool := c.isAlpha || c = '_'

/-- Character class `\w`, i.e. `[A-Za-z0-9_]`. -/
def isWordChar (c : Char) : Bool := c.isAlpha || c.isDigit || c = '_'

/-- Python's `tok.isdigit()`: non-empty and all digits. -/
def pyIsdigit (s : Str) : Bool := !s.isEmpty && s.all Char.isDigit

/-- Test mirroring `re.match(r"[A-Za-z_]\w*", tok)`: it succeeds iff the token
starts with an identifier character (the `\w*` part may match zero characters). -/
def identMatch (s : Str) : Bool :=
  match s with
  | [] => false
  | c :: _ => isIdentStart c

/-! ## Lexer

`tokenize` is `re.findall(r"[A-Za-z_]\w*|[0-9]+|==|<=|>=|!=|[+\-*/%(){};=<>]", code)`:
at each position the alternatives are tried in order, each greedily;
characters matching no alternative are skipped. -/
/-- The single-character operator/punctuation class `[+\-*/%(){};=<>]`. -/
def singleChars : List Char := ['+', '-', '*', '/', '%', '(', ')', '{', '}', ';', '=', '<', '>']

/-- Fuel-driven scanner; fuel `|s| + 1` is always enough since every step
consumes at least one character. -/
def tokenizeAux : Nat → Str → List Str
  | 0, _ => []
  | _, [] => []
  | fuel + 1, c :: cs =>
    if isIdentStart c then
      (c :: cs.takeWhile isWordChar) :: tokenizeAux fuel (cs.dropWhile isWordChar)
    else if c.isDigit then
      (c :: cs.takeWhile Char.isDigit) :: tokenizeAux fuel (cs.dropWhile Char.isDigit)
    else if (c = '=' || c = '<' || c = '>' || c = '!') && cs.head? = some '=' then
      [c, '='] :: tokenizeAux fuel cs.tail
    else if c ∈ singleChars then
      [c] :: tokenizeAux fuel cs
    else
      tokenizeAux fuel cs

/-- Python's `tokenize(code)`. -/
def tokenize (s : Str) : List Str := tokenizeAux (s.length + 1) s

/-! ## AST -/
/-- Expression nodes: `("num", n)`, `("var", name)`, `("binop", op, l, r)`. -/
inductive Expr where
  | num (n : Nat)
  | var (name : Str)
  | binop (op : Str) (l r : Expr)
  deriving DecidableEq, Repr

/-- Statement nodes: `("assign", name, expr)` and `("print", expr)`. -/
inductive Stmt where
  | assign (name : Str) (e : Expr)
  | print (e : Expr)
  deriving DecidableEq, Repr

/-- Exceptions the parser can raise.  `SyntaxError` comes from `eat` /
`statement` / `factor`; `AttributeError` models `tok.isdigit()` when
`peek()` returned `None`; `fuelOut` is the artefact of the fuel encoding
and is proved unreachable for the fuel used by `parse`. -/
inductive ParseErr where
  | fuelOut
  | synErr (msg : Str)
  | attrErr (msg : Str)
  deriving DecidableEq, Repr

/-- Python's `Parser.eat(value)` on the remaining token list: `none` plays the role
of Python's default `value=None` (accept any token). -/
def eat (v : Option Str) (ts : List Str) : Except ParseErr (Str × List Str) :=
  match ts with
  | [] => .error (.synErr (str "Unexpected end of input"))
  | tok :: rest =>
    match v with
    | some val =>
      if tok = val then .ok (tok, rest)
      else .error (.synErr (str "Expected '" ++ val ++ str "', got '" ++ tok ++ str "'"))
    | none => .ok (tok, rest)

/-- The expression-grammar entry points: `factor`, `term` (split into its
initial call and its `while`-loop), `expr` (likewise).  Bundling them in
one tag keeps the recursion structural in the fuel argument. -/
inductive PTarget where
  | factor
  | term
  | termLoop (acc : Expr)
  | expr
  | exprLoop (acc : Expr)

/-- Python's `Parser.factor` / `Parser.term` / `Parser.expr`, fuel-driven.

`factor` mirrors the Python exactly: when the tokens are exhausted,
`peek()` returns `None` and `tok.isdigit()` raises `AttributeError`
rather than a `SyntaxError`. -/
def parseExprF : Nat → PTarget → List Str → Except ParseErr (Expr × List Str)
  | 0, _, _ => .error .fuelOut
  | fuel + 1, tgt, ts =>
    match tgt with
    | .factor =>
      match ts with
      | [] => .error (.attrErr (str "NoneType object has no attribute isdigit"))
      | tok :: rest =>
        if pyIsdigit tok then .ok (.num (strToNat tok), rest)
        else if identMatch tok then .ok (.var tok, rest)
        else if tok = str "(" then do
          let (node, ts1) ← parseExprF fuel .expr rest
          let (_, ts2) ← eat (some (str ")")) ts1
          .ok (node, ts2)
        else .error (.synErr (str "Unexpected factor: " ++ tok))
    | .term => do
      let (node, ts1) ← parseExprF fuel .factor ts
      parseExprF fuel (.termLoop node) ts1
    | .termLoop node =>
      match ts with
      | op :: rest =>
        if op = str "*" || op = str "/" then do
          let (right, ts1) ← parseExprF fuel .factor rest
          parseExprF fuel (.termLoop (.binop op node right)) ts1
        else .ok (node, ts)
      | [] => .ok (node, ts)
    | .expr => do
      let (node, ts1) ← parseExprF fuel .term ts
      parseExprF fuel (.exprLoop node) ts1
    | .exprLoop node =>
      match ts with
      | op :: rest =>
        if op = str "+" || op = str "-" then do
          let (right, ts1) ← parseExprF fuel .term rest
          parseExprF fuel (.exprLoop (.binop op node right)) ts1
        else .ok (node, ts)
      | [] => .ok (node, ts)

/-- Python's `Parser.statement`.  After `peek() == "let"` the Python calls
`eat("let")` (which necessarily succeeds) and then `name = self.eat()` —
an `eat` with no expected value, which accepts *any* token as the
variable name. -/
def statementF (fuel : Nat) (ts : List Str) : Except ParseErr (Stmt × List Str) :=
  match ts with
  | tok :: rest =>
    if tok = str "let" then
      match rest with
      | [] => .error (.synErr (str "Unexpected end of input"))
      | name :: rest2 => do
        let (_, ts3) ← eat (some (str "=")) rest2
        let (e, ts4) ← parseExprF fuel .expr ts3
        let (_, ts5) ← eat (some (str ";")) ts4
        .ok (.assign name e, ts5)
    else if tok = str "print" then do
      let (_, ts2) ← eat (some (str "(")) rest
      let (e, ts3) ← parseExprF fuel .expr ts2
      let (_, ts4) ← eat (some (str ")")) ts3
      let (_, ts5) ← eat (some (str ";")) ts4
      .ok (.print e, ts5)
    else .error (.synErr (str "Unexpected token: " ++ tok))
  | [] => .error (.synErr (str "Unexpected token: None"))

/-- Python's `Parser.parse`: `while self.peek(): ast.append(self.statement())`. -/
def parseLoopF : Nat → List Str → Except ParseErr (List Stmt)
  | _, [] => .ok []
  | 0, _ :: _ => .error .fuelOut
  | fuel + 1, ts => do
    let (s, ts1) ← statementF fuel ts
    let rest ← parseLoopF fuel ts1
    .ok (s :: rest)

/-- Entry point `Parser(tokens).parse()`.  The fuel `5 * |ts| + 6` is proved adequate
below (`parse_no_fuelOut`). -/
def parse (ts : List Str) : Except ParseErr (List Stmt) :=
  parseLoopF (5 * ts.length + 6) ts

/-! ## String utilities used by the later pipeline stages

The TAC lines are Python strings; `generate_ASM` classifies them with
`line.split()` (whitespace split) and list membership, while the
interpreter loop classifies them with substring tests (`"=" in stmt`),
splits assignments with `stmt.split(" = ")` and evaluates via `eval`. -/
/-- Whitespace characters recognised by Python's `str.split()` (the ASCII
ones; generated TAC lines only ever contain `' '`). -/
def isPyWs (c : Char) : Bool := c = ' ' || c = '\t' || c = '\n' || c = '\r'

/-- Accumulator-passing worker for `pySplitWs`. -/
def splitWsAux : Str → Str → List Str
  | [], acc => if acc.isEmpty then [] else [acc.reverse]
  | c :: cs, acc =>
    if isPyWs c then
      if acc.isEmpty then splitWsAux cs [] else acc.reverse :: splitWsAux cs []
    else splitWsAux cs (c :: acc)

/-- Python's `s.split()`: split on whitespace runs, dropping empty pieces. -/
def pySplitWs (s : Str) : List Str := splitWsAux s []

/-- Python's `" ".join(parts)`. -/
def joinSpace : List Str → Str
  | [] => []
  | [p] => p
  | p :: q :: ps => p ++ ' ' :: joinSpace (q :: ps)

/-- Boolean string-prefix test. -/
def isPrefixB : Str → Str → Bool
  | [], _ => true
  | _ :: _, [] => false
  | a :: as, b :: bs => a = b && isPrefixB as bs

/-- Boolean substring test: Python's `needle in haystack` on strings. -/
def isInfixB (n : Str) : Str → Bool
  | [] => n.isEmpty
  | c :: cs => isPrefixB n (c :: cs) || isInfixB n cs

/-- Leftmost occurrence of the separator `" = "`: returns the pieces before
and after it.  Python's `stmt.split(" = ")` yields exactly two pieces iff
`findSep` succeeds and the part after the separator contains no further
occurrence. -/
def findSep : Str → Option (Str × Str)
  | [] => none
  | c :: cs =>
    if isPrefixB (str " = ") (c :: cs) then some ([], cs.drop 2)
    else
      match findSep cs with
      | some (pre, post) => some (c :: pre, post)
      | none => none

/-- Test for at least one `" = "` occurrence. -/
def hasSepB (s : Str) : Bool := (findSep s).isSome

/-! ## Three-address code generator

The Python module holds a global `temp_count = 0`, incremented by
`new_temp()` and never reset; the embedding threads that counter value
explicitly: a call `generate_TAC(ast)` made when the global counter holds
`c` is `generate_TAC ast c`, whose second component is the counter's value
afterwards. -/
/-- Python's `new_temp()`: increments the counter, returns `f"t{temp_count}"`. -/
def new_temp (c : Nat) : Str × Nat := (str "t" ++ natToStr (c + 1), c + 1)

/-- Python's `generate_TAC_expr(expr, code)`: returns the operand text and
the `Compute` lines appended to `code` (left subtree's lines first, then
the right subtree's, then this node's), threading the temp counter. -/
def generate_TAC_expr : Expr → Nat → Str × List Str × Nat
  | .num n, c => (natToStr n, [], c)
  | .var x, c => (x, [], c)
  | .binop op l r, c =>
    let res1 := generate_TAC_expr l c
    let res2 := generate_TAC_expr r res1.2.2
    let tc := new_temp res2.2.2
    (tc.1,
     res1.2.1 ++ res2.2.1 ++
       [tc.1 ++ str " = " ++ res1.1 ++ str " " ++ op ++ str " " ++ res2.1],
     tc.2)

/-- Python's `generate_TAC(ast)` with the global counter made explicit. -/
def generate_TAC : List Stmt → Nat → List Str × Nat
  | [], c => ([], c)
  | .assign name e :: rest, c =>
    let r := generate_TAC_expr e c
    let tail := generate_TAC rest r.2.2
    (r.2.1 ++ [name ++ str " = " ++ r.1] ++ tail.1, tail.2)
  | .print e :: rest, c =>
    let r := generate_TAC_expr e c
    let tail := generate_TAC rest r.2.2
    (r.2.1 ++ [str "PRINT " ++ r.1] ++ tail.1, tail.2)

/-! ## Assembly generator -/
/-- Exception `generate_ASM` can raise: `parts[1]` when a line whose token
list contains `"PRINT"` has fewer than two tokens (never the case for
generated TAC). -/
inductive AsmErr where
  | indexErr
  deriving DecidableEq, Repr

/-- Translation of one TAC line by the body of `generate_ASM`'s loop.
Classification is by token content: `if "=" in parts and "PRINT" not in
parts` emits `LOAD`/`STORE`, `elif "PRINT" in parts` emits `LOAD`/`OUT`,
anything else emits nothing. -/
def genAsmLine (line : Str) : Except AsmErr (List Str) :=
  match pySplitWs line with
  | [] => .ok []
  | p0 :: rest =>
    if str "=" ∈ p0 :: rest ∧ str "PRINT" ∉ p0 :: rest then
      .ok [str "LOAD " ++ joinSpace ((p0 :: rest).drop 2), str "STORE " ++ p0]
    else if str "PRINT" ∈ p0 :: rest then
      match rest with
      | p1 :: _ => .ok [str "LOAD " ++ p1, str "OUT"]
      | [] => .error .indexErr
    else .ok []

/-- Python's `generate_ASM(tac)`. -/
def generate_ASM : List Str → Except AsmErr (List Str)
  | [] => .ok []
  | line :: rest => do
    let a ← genAsmLine line
    let tail ← generate_ASM rest
    .ok (a ++ tail)

/-! ## Interpreter (the final loop of `main`)

The loop evaluates the TAC lines against a `memory` dict with Python's
`eval(expr, {}, memory)` and a bare `except` that stores `0`.  Because the
globals dict is empty, `eval` still resolves Python's builtins and keyword
constants: `True`, `False`, `None` and `__debug__` are compile-time
constants, and every other builtin name resolves to an object (a
function, class, exception type, `Ellipsis`/`NotImplemented`, the module
dunders, or the injected `__builtins__` entry).  Values are modelled by
`PyVal`; a Python float is kept as an exact fraction `vfloat num den`
(`num/den`), which coincides with the IEEE value on every computation
appearing in these claims and is never compared across
differently-represented equals. -/
/-- Python runtime values that can appear in `memory` or be printed.
`vobj name` is an opaque non-integer builtin object (function, class,
exception type, module, or a string-valued module attribute); arithmetic
between such an object and a number raises `TypeError` exactly as in
Python.  (Python would concatenate the three string-valued members, e.g.
`__name__ + __doc__`; the opaque model treats that as an error, a
divergence no theorem below reaches, since the integer-valued theorems
exclude these names altogether and the zero-on-error theorems always
pair the name with an integer literal.) -/
inductive PyVal where
  | vint (n : ℤ)
  | vfloat (num den : ℤ)
  | vbool (b : Bool)
  | vnone
  | vobj (name : Str)
  deriving DecidableEq, Repr

/-- The interpreter's `memory` dict: insertion-ordered association list. -/
abbrev Memory := List (Str × PyVal)

/-- Dict lookup, `memory.get(key)`-style (`none` when absent). -/
def memLookup : Memory → Str → Option PyVal
  | [], _ => none
  | (k, v) :: rest, key => if k = key then some v else memLookup rest key

/-- Dict update `memory[key] = v`: overwrite in place or append. -/
def memSet : Memory → Str → PyVal → Memory
  | [], key, v => [(key, v)]
  | (k, w) :: rest, key, v =>
    if k = key then (k, v) :: rest else (k, w) :: memSet rest key v

/-- Python keyword constants that are compiled, not name-resolved, so the
empty-globals `eval` still sees them (and `memory` cannot shadow them). -/
def pyKeywordConst (a : Str) : Option PyVal :=
  if a = str "True" || a = str "__debug__" then some (.vbool true)
  else if a = str "False" then some (.vbool false)
  else if a = str "None" then some .vnone
  else none

/-- The names `eval(expr, {}, memory)` can resolve outside the local
`memory` dict: Python injects `__builtins__` into the empty globals, so
name lookup falls through to the `builtins` module (with the `site`
additions such as `exit` and `help`, the module-level dunders, and the
`__builtins__` key of the globals dict itself).  The list is the union of
these names across CPython 3 versions: including a name a given version
lacks only turns a real `NameError` into a modelled opaque object, and
both evaluate to zero under the interpreter's bare `except` in every
arithmetic context, while omitting a real builtin would wrongly model a
resolvable name as unresolved.  `True`, `False`, `None` and `__debug__`
are compiled constants handled before any lookup (`pyKeywordConst`), so
they are not listed here. -/
def pyBuiltinNames : List Str :=
  [str "abs", str "aiter", str "all", str "anext",
   str "any", str "ascii", str "bin", str "bool",
   str "breakpoint", str "bytearray", str "bytes", str "callable",
   str "chr", str "classmethod", str "compile", str "complex",
   str "copyright", str "credits", str "delattr", str "dict",
   str "dir", str "divmod", str "enumerate", str "eval",
   str "exec", str "exit", str "filter", str "float",
   str "format", str "frozenset", str "getattr", str "globals",
   str "hasattr", str "hash", str "help", str "hex",
   str "id", str "input", str "int", str "isinstance",
   str "issubclass", str "iter", str "len", str "license",
   str "list", str "locals", str "map", str "max",
   str "memoryview", str "min", str "next", str "object",
   str "oct", str "open", str "ord", str "pow",
   str "print", str "property", str "quit", str "range",
   str "repr", str "reversed", str "round", str "set",
   str "setattr", str "slice", str "sorted", str "staticmethod",
   str "str", str "sum", str "super", str "tuple",
   str "type", str "vars", str "zip", str "ArithmeticError",
   str "AssertionError", str "AttributeError", str "BaseException", str "BaseExceptionGroup",
   str "BlockingIOError", str "BrokenPipeError", str "BufferError", str "BytesWarning",
   str "ChildProcessError", str "ConnectionAbortedError", str "ConnectionError", str "ConnectionRefusedError",
   str "ConnectionResetError", str "DeprecationWarning", str "EOFError", str "EncodingWarning",
   str "EnvironmentError", str "Exception", str "ExceptionGroup", str "FileExistsError",
   str "FileNotFoundError", str "FloatingPointError", str "FutureWarning", str "GeneratorExit",
   str "IOError", str "ImportError", str "ImportWarning", str "IndentationError",
   str "IndexError", str "InterruptedError", str "IsADirectoryError", str "KeyError",
   str "KeyboardInterrupt", str "LookupError", str "MemoryError", str "ModuleNotFoundError",
   str "NameError", str "NotADirectoryError", str "NotImplementedError", str "OSError",
   str "OverflowError", str "PendingDeprecationWarning", str "PermissionError", str "ProcessLookupError",
   str "PythonFinalizationError", str "RecursionError", str "ReferenceError", str "ResourceWarning",
   str "RuntimeError", str "RuntimeWarning", str "StopAsyncIteration", str "StopIteration",
   str "SyntaxError", str "SyntaxWarning", str "SystemError", str "SystemExit",
   str "TabError", str "TimeoutError", str "TypeError", str "UnboundLocalError",
   str "UnicodeDecodeError", str "UnicodeEncodeError", str "UnicodeError", str "UnicodeTranslateError",
   str "UnicodeWarning", str "UserWarning", str "ValueError", str "Warning",
   str "WindowsError", str "ZeroDivisionError", str "Ellipsis", str "NotImplemented",
   str "__build_class__", str "__builtins__", str "__doc__", str "__import__",
   str "__loader__", str "__name__", str "__package__", str "__spec__"]

/-- Test for a decimal literal that Python 3 rejects (`eval("07")` is a
syntax error). -/
def leadingZero (s : Str) : Bool :=
  match s with
  | '0' :: _ :: _ => true
  | _ => false

/-- Evaluation of one operand token under `eval(expr, {}, memory)`:
decimal literal, keyword constant, local (memory) lookup, builtin lookup,
else `NameError`. -/
def evalAtom (mem : Memory) (a : Str) : Except Unit PyVal :=
  if pyIsdigit a then
    if leadingZero a then .error () else .ok (.vint (strToNat a))
  else
    match pyKeywordConst a with
    | some v => .ok v
    | none =>
      match memLookup mem a with
      | some v => .ok v
      | none => if a ∈ pyBuiltinNames then .ok (.vobj a) else .error ()

/-- Numeric coercion to `int` (Python `bool` is an `int` subclass). -/
def asInt : PyVal → Option ℤ
  | .vint n => some n
  | .vbool b => some (if b then 1 else 0)
  | _ => none

/-- Numeric coercion to an exact fraction. -/
def asFrac : PyVal → Option (ℤ × ℤ)
  | .vint n => some (n, 1)
  | .vbool b => some (if b then 1 else 0, 1)
  | .vfloat p q => some (p, q)
  | _ => none

/-- Integer result of `+`/`-`/`*`. -/
def intOp (op : Str) (x y : ℤ) : ℤ :=
  if op = str "+" then x + y else if op = str "-" then x - y else x * y

/-- Fraction result of `+`/`-`/`*`. -/
def fracOp (op : Str) : ℤ × ℤ → ℤ × ℤ → ℤ × ℤ
  | (a, b), (c, d) =>
    if op = str "+" then (a * d + c * b, b * d)
    else if op = str "-" then (a * d - c * b, b * d)
    else (a * c, b * d)

/-- Python binary arithmetic on two values: `/` always produces a float
(or `ZeroDivisionError`); `+`/`-`/`*` produce an `int` on two ints/bools
and a float once a float is involved; non-numeric operands raise
`TypeError`; any other operator marks the expression malformed. -/
def pyArith (op : Str) (x y : PyVal) : Except Unit PyVal :=
  if op = str "/" then
    match asFrac x, asFrac y with
    | some (a, b), some (c, d) =>
      if c = 0 then .error () else .ok (.vfloat (a * d) (b * c))
    | _, _ => .error ()
  else if op = str "+" || op = str "-" || op = str "*" then
    match asInt x, asInt y with
    | some a, some b => .ok (.vint (intOp op a b))
    | _, _ =>
      match asFrac x, asFrac y with
      | some fx, some fy => .ok (.vfloat (fracOp op fx fy).1 (fracOp op fx fy).2)
      | _, _ => .error ()
  else .error ()

/-- Python's `eval(expr, {}, memory)` restricted to the expression shapes
a TAC right-hand side can have: a single operand, or `operand op operand`.
Anything else is an evaluation error (Python would raise a syntax error,
caught by the same bare `except`). -/
def pyEval (mem : Memory) (s : Str) : Except Unit PyVal :=
  match pySplitWs s with
  | [a] => evalAtom mem a
  | [a, op, b] => do
    let va ← evalAtom mem a
    let vb ← evalAtom mem b
    pyArith op va vb
  | _ => .error ()

/-- The `try: memory[var] = eval(...) except: memory[var] = 0` policy. -/
def evalOr0 (mem : Memory) (s : Str) : PyVal :=
  match pyEval mem s with
  | .ok v => v
  | .error _ => .vint 0

/-- Exceptions the interpreter loop itself can raise (outside the `try`):
`ValueError` from unpacking `stmt.split(" = ")` into two names, and
`IndexError` from `stmt.split()[1]`.  Neither occurs on generated TAC. -/
inductive InterpErr where
  | valueErr
  | indexErr
  deriving DecidableEq, Repr

/-- One iteration of the interpreter loop, on state (memory, printed).
Note the classification is by substring: `if "=" in stmt and "PRINT" not
in stmt`, then `elif "PRINT" in stmt`, else nothing. -/
def interpStep (st : Memory × List PyVal) (stmt : Str) :
    Except InterpErr (Memory × List PyVal) :=
  if isInfixB (str "=") stmt && !isInfixB (str "PRINT") stmt then
    match findSep stmt with
    | some (varName, rhs) =>
      if hasSepB rhs then .error .valueErr
      else .ok (memSet st.1 varName (evalOr0 st.1 rhs), st.2)
    | none => .error .valueErr
  else if isInfixB (str "PRINT") stmt then
    match pySplitWs stmt with
    | _ :: v :: _ => .ok (st.1, st.2 ++ [(memLookup st.1 v).getD (.vint 0)])
    | _ => .error .indexErr
  else .ok st

/-- Fold of `interpStep` over the TAC lines. -/
def runTac : List Str → Memory × List PyVal → Except InterpErr (Memory × List PyVal)
  | [], st => .ok st
  | line :: rest, st => do
    let st1 ← interpStep st line
    runTac rest st1

/-- The whole `=== OUTPUT ===` phase: evaluate the TAC from an empty
memory; result is the final memory and the printed sequence. -/
def run (tac : List Str) : Except InterpErr (Memory × List PyVal) :=
  runTac tac ([], [])

/-! ## Token well-formedness -/
/-- Tokens that are non-empty and whitespace-free: the shape of every piece
of a generated TAC line. -/
def CleanTok (t : Str) : Prop := t ≠ [] ∧ ∀ c ∈ t, isPyWs c = false

/-! ## Parser fuel adequacy

The fuel encoding introduces an artificial `fuelOut` result; these lemmas
show it never occurs at the fuel `parse` supplies, which mirrors the
termination of the Python parser (every recursive call happens strictly
later in the token stream, or at a lower grammar level). -/
/-- Fuel cost offset of each grammar level. -/
def ptRank : PTarget → Nat
  | .factor => 1
  | .term => 2
  | .termLoop _ => 3
  | .expr => 4
  | .exprLoop _ => 3

/-- Minimum number of tokens consumed on success at each grammar level. -/
def ptConsume : PTarget → Nat
  | .factor => 1
  | .term => 1
  | .expr => 1
  | .termLoop _ => 0
  | .exprLoop _ => 0

/-! ## Provenance of parsed ASTs

Every variable/assignment name in a parsed AST is a token of the input,
and every operator is one of the four arithmetic tokens the `term`/`expr`
loops accept. -/
/-- Property of being one of the four binary-operator tokens. -/
def FourOp (op : Str) : Prop :=
  op = str "+" ∨ op = str "-" ∨ op = str "*" ∨ op = str "/"

/-- All names in an expression satisfy `P` and all operators satisfy `Q`. -/
def ExprOk (P Q : Str → Prop) : Expr → Prop
  | .num _ => True
  | .var x => P x
  | .binop op l r => Q op ∧ ExprOk P Q l ∧ ExprOk P Q r

/-- All names in a statement satisfy `P` and all operators satisfy `Q`. -/
def StmtOk (P Q : Str → Prop) : Stmt → Prop
  | .assign name e => P name ∧ ExprOk P Q e
  | .print e => ExprOk P Q e

/-- Accumulators carried by the loop targets are themselves well-formed. -/
def PTargetOk (P Q : Str → Prop) : PTarget → Prop
  | .termLoop acc => ExprOk P Q acc
  | .exprLoop acc => ExprOk P Q acc
  | _ => True

/-! ## Shapes of generated TAC lines -/
/-- Provenance of a TAC operand: a rendered literal, a source variable
name, or a generated temp name. -/
inductive Opnd where
  | lit (n : Nat)
  | varOp (x : Str)
  | temp (k : Nat)
  deriving DecidableEq, Repr

/-- Text of an operand. -/
def renderOp : Opnd → Str
  | .lit n => natToStr n
  | .varOp x => x
  | .temp k => str "t" ++ natToStr k

/-- The three shapes of line `generate_TAC` emits. -/
inductive LineShape where
  | compute (t : Nat) (l : Opnd) (op : Str) (r : Opnd)
  | assignL (name : Str) (v : Opnd)
  | printL (v : Opnd)
  deriving DecidableEq, Repr

/-- Text of a line (the pieces joined by single spaces, exactly as the
f-strings in `generate_TAC` lay them out). -/
def renderLine : LineShape → Str
  | .compute t l op r => joinSpace [renderOp (.temp t), str "=", renderOp l, op, renderOp r]
  | .assignL name v => joinSpace [name, str "=", renderOp v]
  | .printL v => joinSpace [str "PRINT", renderOp v]

/-- Names referenced by an operand satisfy `P`. -/
def OpndOk (P : Str → Prop) : Opnd → Prop
  | .varOp x => P x
  | _ => True

/-- Well-formedness of a line shape: names satisfy `P`, operators `Q`. -/
def ShapeOk (P Q : Str → Prop) : LineShape → Prop
  | .compute _ l op r => Q op ∧ OpndOk P l ∧ OpndOk P r
  | .assignL name v => P name ∧ OpndOk P v
  | .printL v => OpndOk P v

/-! ## Interpreter invariants

Under suitable conditions (no `/` operator, no variable named after a
Python keyword constant or builtin) every value the interpreter computes
is an `int`. -/
/-- Names with special meaning to the empty-globals `eval`: keyword
constants and builtins. -/
def specialAtoms : List Str :=
  [str "True", str "False", str "None", str "__debug__"] ++ pyBuiltinNames

/-- The memory maps every name to a Python `int`. -/
def AllInt (mem : Memory) : Prop := ∀ kv ∈ mem, ∃ n : ℤ, kv.2 = PyVal.vint n

/-- Every printed value is a Python `int`. -/
def AllIntList (out : List PyVal) : Prop := ∀ v ∈ out, ∃ n : ℤ, v = PyVal.vint n

/-- Names that are safe for integer-only evaluation. -/
def SafeName (x : Str) : Prop := CleanTok x ∧ x ∉ specialAtoms

/-- The three integer-preserving operators. -/
def ThreeOp (op : Str) : Prop := op = str "+" ∨ op = str "-" ∨ op = str "*"

/-! ## Decidability of the well-formedness predicates -/
instance (t : Str) : Decidable (CleanTok t) := by
  unfold CleanTok
  infer_instance

instance (x : Str) : Decidable (SafeName x) := by
  unfold SafeName
  infer_instance

instance (op : Str) : Decidable (ThreeOp op) := by
  unfold ThreeOp
  infer_instance

instance (op : Str) : Decidable (FourOp op) := by
  unfold FourOp
  infer_instance

/-- Decidability of `ExprOk`, by structural recursion. -/
def exprOkDec (P Q : Str → Prop) [DecidablePred P] [DecidablePred Q] :
    ∀ e : Expr, Decidable (ExprOk P Q e)
  | .num _ => .isTrue trivial
  | .var x => by unfold ExprOk; infer_instance
  | .binop op l r => by
    unfold ExprOk
    exact @instDecidableAnd _ _ _ (@instDecidableAnd _ _ (exprOkDec P Q l) (exprOkDec P Q r))

instance (P Q : Str → Prop) [DecidablePred P] [DecidablePred Q] (e : Expr) :
    Decidable (ExprOk P Q e) := exprOkDec P Q e

instance (P Q : Str → Prop) [DecidablePred P] [DecidablePred Q] (s : Stmt) :
    Decidable (StmtOk P Q s) := by
  cases s <;> (unfold StmtOk; infer_instance)

/-- Expressions that generate no temporaries (no binary operation). -/
def NoBinopE : Expr → Prop
  | .binop _ _ _ => False
  | _ => True

/-- Statements whose expression generates no temporaries. -/
def NoBinop : Stmt → Prop
  | .assign _ e => NoBinopE e
  | .print e => NoBinopE e

/-! Quick sanity checks of the parser embedding. -/
example :
    tokenize (str "let x = 1 + 2 * 3;") =
      [str "let", str "x", str "=", str "1", str "+", str "2", str "*", str "3", str ";"] := by
  decide

example :
    parse (tokenize (str "let x = 1 + 2 * 3;")) =
      .ok [.assign (str "x") (.binop (str "+") (.num 1) (.binop (str "*") (.num 2) (.num 3)))] := by
  decide

example :
    parse (tokenize (str "let a = 5 - 2 - 1;")) =
      .ok [.assign (str "a") (.binop (str "-") (.binop (str "-") (.num 5) (.num 2)) (.num 1))] := by
  decide

example :
    parse (tokenize (str "let x =")) =
      .error (.attrErr (str "NoneType object has no attribute isdigit")) := by
  decide

example :
    parse (tokenize (str "let 5 = 1;")) = .ok [.assign (str "5") (.num 1)] := by
  decide

/-! Sanity checks of the back end of the pipeline. -/
example :
    generate_TAC [.assign (str "x") (.binop (str "+") (.num 2) (.num 3)), .print (.var (str "x"))] 0 =
      ([str "t1 = 2 + 3", str "x = t1", str "PRINT x"], 1) := by decide

example :
    run [str "t1 = 2 + 3", str "x = t1", str "PRINT x"] =
      .ok ([(str "t1", .vint 5), (str "x", .vint 5)], [.vint 5]) := by decide

example :
    generate_ASM [str "t1 = 2 + 3", str "x = t1", str "PRINT x"] =
      .ok [str "LOAD 2 + 3", str "STORE t1", str "LOAD t1", str "STORE x",
           str "LOAD x", str "OUT"] := by decide

example :
    generate_ASM [str "PRINT = 5"] = .ok [str "LOAD =", str "OUT"] := by decide

example :
    run [str "t1 = 5 / 2", str "x = t1", str "PRINT x"] =
      .ok ([(str "t1", .vfloat 5 2), (str "x", .vfloat 5 2)], [.vfloat 5 2]) := by decide

example :
    run [str "t1 = True + 1", str "y = t1"] =
      .ok ([(str "t1", .vint 2), (str "y", .vint 2)], []) := by decide

example :
    run [str "t1 = x + 1", str "y = t1"] =
      .ok ([(str "t1", .vint 0), (str "y", .vint 0)], []) := by decide

example :
    run [str "t1 = abs + 1", str "y = t1"] =
      .ok ([(str "t1", .vint 0), (str "y", .vint 0)], []) := by decide

example : run [str "PRINT 7"] = .ok ([], [.vint 0]) := by decide

example :
    run [str "q = type", str "PRINT q"] =
      .ok ([(str "q", .vobj (str "type"))], [.vobj (str "type")]) := by decide

lemma splitWsAux_word (w : Str) (hw : ∀ c ∈ w, isPyWs c = false) :
    ∀ s acc, splitWsAux (w ++ s) acc = splitWsAux s (w.reverse ++ acc) := by
  induction w with
  | nil => intro s acc; simp
  | cons c w ih =>
    intro s acc
    have hc : isPyWs c = false := hw c (by simp)
    have hw' : ∀ d ∈ w, isPyWs d = false := fun d hd => hw d (by simp [hd])
    have h2 := ih hw' s (c :: acc)
    simp only [List.cons_append, splitWsAux, hc, Bool.false_eq_true, if_false,
      List.reverse_cons, List.append_assoc, List.singleton_append]
    simpa using h2

lemma pySplitWs_join (ps : List Str) (h : ∀ p ∈ ps, CleanTok p) :
    pySplitWs (joinSpace ps) = ps := by
  induction ps with
  | nil => rfl
  | cons p ps ih =>
    obtain ⟨hne, hcl⟩ := h p (by simp)
    cases ps with
    | nil =>
      show pySplitWs p = [p]
      have h1 : splitWsAux (p ++ []) [] = splitWsAux [] (p.reverse ++ []) :=
        splitWsAux_word p hcl [] []
      simp only [List.append_nil] at h1
      unfold pySplitWs
      rw [h1]
      simp [splitWsAux, hne]
    | cons q ps' =>
      show pySplitWs (p ++ ' ' :: joinSpace (q :: ps')) = p :: q :: ps'
      unfold pySplitWs
      rw [splitWsAux_word p hcl (' ' :: joinSpace (q :: ps')) []]
      have hrev : (p.reverse ++ []).isEmpty = false := by
        simp [List.isEmpty_iff, hne]
      simp only [splitWsAux, isPyWs, hrev]
      have ihq := ih (fun r hr => h r (by simp [hr]))
      unfold pySplitWs at ihq
      simp [ihq]

lemma isPrefixB_append_space (n : Str) (hn : ∀ c ∈ n, c ≠ ' ') :
    ∀ (w s : Str), isPrefixB n (w ++ ' ' :: s) = isPrefixB n w := by
  induction n with
  | nil => intro w s; cases w <;> simp [isPrefixB]
  | cons c n ih =>
    intro w s
    cases w with
    | nil =>
      have hc : c ≠ ' ' := hn c (by simp)
      simp [isPrefixB, hc]
    | cons a w' =>
      have hn' : ∀ d ∈ n, d ≠ ' ' := fun d hd => hn d (by simp [hd])
      simp only [List.cons_append, isPrefixB, List.append_eq, ih hn' w' s]

lemma isInfixB_append_space (n : Str) (hne : n ≠ []) (hn : ∀ c ∈ n, c ≠ ' ') :
    ∀ (w s : Str), isInfixB n (w ++ ' ' :: s) = (isInfixB n w || isInfixB n s) := by
  intro w
  induction w with
  | nil =>
    intro s
    obtain ⟨c, n', rfl⟩ := List.exists_cons_of_ne_nil hne
    have hc : c ≠ ' ' := hn c (by simp)
    simp [isInfixB, isPrefixB, hc]
  | cons a w' ih =>
    intro s
    have h1 : isPrefixB n ((a :: w') ++ ' ' :: s) = isPrefixB n (a :: w') :=
      isPrefixB_append_space n hn (a :: w') s
    simp only [List.cons_append] at h1 ⊢
    simp only [isInfixB, h1, ih s, Bool.or_assoc]

lemma isInfixB_join (n : Str) (hne : n ≠ []) (hn : ∀ c ∈ n, c ≠ ' ') :
    ∀ ps : List Str, isInfixB n (joinSpace ps) = ps.any (fun p => isInfixB n p) := by
  intro ps
  induction ps with
  | nil => simp [joinSpace, isInfixB, List.isEmpty_iff, hne]
  | cons p ps ih =>
    cases ps with
    | nil => simp [joinSpace]
    | cons q ps' =>
      show isInfixB n (p ++ ' ' :: joinSpace (q :: ps')) = _
      rw [isInfixB_append_space n hne hn, ih]
      simp

lemma findSep_word (w : Str) (hw : ∀ c ∈ w, c ≠ ' ') :
    ∀ s, findSep (w ++ s) = (findSep s).map (fun pr => (w ++ pr.1, pr.2)) := by
  induction w with
  | nil => intro s; cases h : findSep s <;> simp [h]
  | cons c w' ih =>
    intro s
    have hc : c ≠ ' ' := hw c (by simp)
    have hw' : ∀ d ∈ w', d ≠ ' ' := fun d hd => hw d (by simp [hd])
    have hpre : isPrefixB (str " = ") (c :: (w' ++ s)) = false := by
      simp [str, isPrefixB, Ne.symm hc]
    simp only [List.cons_append, findSep, hpre, Bool.false_eq_true, if_false, List.append_eq]
    rw [ih hw']
    cases h : findSep s <;> simp [h]

lemma findSep_sep (s : Str) : findSep (' ' :: '=' :: ' ' :: s) = some ([], s) := by
  simp [findSep, str, isPrefixB]

lemma findSep_space_notsep (rest : Str) (h : isPrefixB (str "= ") rest = false) :
    findSep (' ' :: rest) = (findSep rest).map (fun pr => (' ' :: pr.1, pr.2)) := by
  have hpre : isPrefixB (str " = ") (' ' :: rest) = false := by
    simpa [str, isPrefixB] using h
  simp only [findSep, hpre, Bool.false_eq_true, if_false]
  cases hf : findSep rest <;> simp [hf]

lemma findSep_none_of_spaceless (w : Str) (hw : ∀ c ∈ w, c ≠ ' ') : findSep w = none := by
  have h := findSep_word w hw []
  simpa using h

lemma isPrefixB_eqsp_false_append (u v : Str) (hne : u ≠ [])
    (hu : ∀ c ∈ u, c ≠ ' ') (hneq : u ≠ str "=") :
    isPrefixB (str "= ") (u ++ v) = false := by
  obtain ⟨c, u', rfl⟩ := List.exists_cons_of_ne_nil hne
  by_cases hc : c = '='
  · subst hc
    cases u' with
    | nil => exact absurd rfl hneq
    | cons d u'' =>
      have hd : d ≠ ' ' := hu d (by simp)
      simp [str, isPrefixB, Ne.symm hd]
  · simp [str, isPrefixB, Ne.symm hc]

lemma isPrefixB_eqsp_false (r : Str) (hr : ∀ c ∈ r, c ≠ ' ') :
    isPrefixB (str "= ") r = false := by
  cases r with
  | nil => simp [str, isPrefixB]
  | cons c r' =>
    by_cases hc : c = '='
    · subst hc
      cases r' with
      | nil => simp [str, isPrefixB]
      | cons d r'' =>
        have hd : d ≠ ' ' := hr d (by simp)
        simp [str, isPrefixB, Ne.symm hd]
    · simp [str, isPrefixB, Ne.symm hc]

@[simp] lemma exceptBindOk {e a b : Type} (x : a) (f : a → Except e b) :
    (Except.ok x >>= f) = f x := rfl

@[simp] lemma exceptBindErr {e a b : Type} (err : e) (f : a → Except e b) :
    (Except.error err >>= f : Except e b) = Except.error err := rfl

lemma eat_not_fuelOut (v : Option Str) (ts : List Str) :
    eat v ts ≠ .error .fuelOut := by
  cases ts with
  | nil => simp [eat]
  | cons tok rest =>
    cases v with
    | none => simp [eat]
    | some val => by_cases hv : tok = val <;> simp [eat, hv]

lemma eat_ok_cons {v : Option Str} {ts : List Str} {tok : Str} {rest : List Str}
    (h : eat v ts = .ok (tok, rest)) : ts = tok :: rest := by
  cases ts with
  | nil => simp [eat] at h
  | cons t ts' =>
    cases v with
    | none =>
      simp [eat] at h
      simp [h.1, h.2]
    | some val =>
      by_cases hv : t = val
      · simp [eat, hv] at h
        rw [hv, h.1, h.2]
      · simp [eat, hv] at h

lemma parseExprF_ok :
    ∀ (fuel : Nat) (tgt : PTarget) (ts : List Str), 5 * ts.length + ptRank tgt ≤ fuel →
      parseExprF fuel tgt ts ≠ .error .fuelOut ∧
      ∀ e ts', parseExprF fuel tgt ts = .ok (e, ts') →
        ts'.length + ptConsume tgt ≤ ts.length := by
  intro fuel
  induction fuel with
  | zero =>
    intro tgt ts h
    exfalso
    cases tgt <;> simp [ptRank] at h
  | succ n ih =>
    intro tgt ts h
    cases tgt with
    | factor =>
      cases ts with
      | nil =>
        refine ⟨by simp [parseExprF], ?_⟩
        intro e ts' he
        simp [parseExprF] at he
      | cons tok rest =>
        simp only [List.length_cons, ptRank] at h
        by_cases h1 : pyIsdigit tok
        · refine ⟨by simp [parseExprF, h1], ?_⟩
          intro e ts' he
          simp [parseExprF, h1] at he
          simp [ptConsume, ← he.2]
        · by_cases h2 : identMatch tok
          · refine ⟨by simp [parseExprF, h1, h2], ?_⟩
            intro e ts' he
            simp [parseExprF, h1, h2] at he
            simp [ptConsume, ← he.2]
          · by_cases h3 : tok = str "("
            · subst h3
              have hd : pyIsdigit (str "(") = false := by decide
              have hm : identMatch (str "(") = false := by decide
              have hrec := ih .expr rest (by simp [ptRank]; omega)
              cases hsub : parseExprF n .expr rest with
              | error e0 =>
                have hne : e0 ≠ .fuelOut := by
                  intro hcon
                  exact hrec.1 (by rw [hsub, hcon])
                refine ⟨?_, ?_⟩
                · simp [parseExprF, hd, hm, hsub, hne]
                · intro e ts' he
                  simp [parseExprF, hd, hm, hsub] at he
              | ok p =>
                obtain ⟨node, ts1⟩ := p
                have hlen1 := hrec.2 node ts1 hsub
                simp [ptConsume] at hlen1
                cases heat : eat (some (str ")")) ts1 with
                | error e0 =>
                  have hne : e0 ≠ .fuelOut := by
                    intro hcon
                    exact eat_not_fuelOut _ _ (by rw [heat, hcon])
                  refine ⟨?_, ?_⟩
                  · simp [parseExprF, hd, hm, hsub, heat, hne]
                  · intro e ts' he
                    simp [parseExprF, hd, hm, hsub, heat] at he
                | ok q =>
                  obtain ⟨tk, ts2⟩ := q
                  have hcons := eat_ok_cons heat
                  refine ⟨?_, ?_⟩
                  · simp [parseExprF, hd, hm, hsub, heat]
                  · intro e ts' he
                    simp [parseExprF, hd, hm, hsub, heat] at he
                    have hl2 : ts2.length + 1 = ts1.length := by simp [hcons]
                    simp [ptConsume, ← he.2]
                    omega
            · refine ⟨by simp [parseExprF, h1, h2, h3], ?_⟩
              intro e ts' he
              simp [parseExprF, h1, h2, h3] at he
    | term =>
      simp only [ptRank] at h
      have hrec := ih .factor ts (by simp [ptRank]; omega)
      cases hsub : parseExprF n .factor ts with
      | error e0 =>
        have hne : e0 ≠ .fuelOut := by
          intro hcon
          exact hrec.1 (by rw [hsub, hcon])
        refine ⟨?_, ?_⟩
        · simp [parseExprF, hsub, hne]
        · intro e ts' he
          simp [parseExprF, hsub] at he
      | ok p =>
        obtain ⟨node, ts1⟩ := p
        have hlen1 := hrec.2 node ts1 hsub
        simp [ptConsume] at hlen1
        have hrec2 := ih (.termLoop node) ts1 (by simp [ptRank]; omega)
        refine ⟨?_, ?_⟩
        · simp only [parseExprF, hsub, exceptBindOk]
          exact hrec2.1
        · intro e ts' he
          simp only [parseExprF, hsub, exceptBindOk] at he
          have := hrec2.2 e ts' he
          simp [ptConsume] at this ⊢
          omega
    | termLoop node =>
      cases ts with
      | nil =>
        refine ⟨by simp [parseExprF], ?_⟩
        intro e ts' he
        simp [parseExprF] at he
        simp [ptConsume, he.2]
      | cons op rest =>
        simp only [List.length_cons, ptRank] at h
        by_cases hop : (op = str "*" || op = str "/") = true
        · have hrec := ih .factor rest (by simp [ptRank]; omega)
          cases hsub : parseExprF n .factor rest with
          | error e0 =>
            have hne : e0 ≠ .fuelOut := by
              intro hcon
              exact hrec.1 (by rw [hsub, hcon])
            refine ⟨?_, ?_⟩
            · simp [parseExprF, hop, hsub, hne]
            · intro e ts' he
              simp [parseExprF, hop, hsub] at he
          | ok p =>
            obtain ⟨right, ts1⟩ := p
            have hlen1 := hrec.2 right ts1 hsub
            simp [ptConsume] at hlen1
            have hrec2 := ih (.termLoop (.binop op node right)) ts1 (by simp [ptRank]; omega)
            refine ⟨?_, ?_⟩
            · simp only [parseExprF, hop, if_true, hsub, exceptBindOk]
              exact hrec2.1
            · intro e ts' he
              simp only [parseExprF, hop, if_true, hsub, exceptBindOk] at he
              have := hrec2.2 e ts' he
              simp [ptConsume] at this ⊢
              omega
        · refine ⟨by simp [parseExprF, hop], ?_⟩
          intro e ts' he
          simp [parseExprF, hop] at he
          simp [ptConsume, he.2]
    | expr =>
      simp only [ptRank] at h
      have hrec := ih .term ts (by simp [ptRank]; omega)
      cases hsub : parseExprF n .term ts with
      | error e0 =>
        have hne : e0 ≠ .fuelOut := by
          intro hcon
          exact hrec.1 (by rw [hsub, hcon])
        refine ⟨?_, ?_⟩
        · simp [parseExprF, hsub, hne]
        · intro e ts' he
          simp [parseExprF, hsub] at he
      | ok p =>
        obtain ⟨node, ts1⟩ := p
        have hlen1 := hrec.2 node ts1 hsub
        simp [ptConsume] at hlen1
        have hrec2 := ih (.exprLoop node) ts1 (by simp [ptRank]; omega)
        refine ⟨?_, ?_⟩
        · simp only [parseExprF, hsub, exceptBindOk]
          exact hrec2.1
        · intro e ts' he
          simp only [parseExprF, hsub, exceptBindOk] at he
          have := hrec2.2 e ts' he
          simp [ptConsume] at this ⊢
          omega
    | exprLoop node =>
      cases ts with
      | nil =>
        refine ⟨by simp [parseExprF], ?_⟩
        intro e ts' he
        simp [parseExprF] at he
        simp [ptConsume, he.2]
      | cons op rest =>
        simp only [List.length_cons, ptRank] at h
        by_cases hop : (op = str "+" || op = str "-") = true
        · have hrec := ih .term rest (by simp [ptRank]; omega)
          cases hsub : parseExprF n .term rest with
          | error e0 =>
            have hne : e0 ≠ .fuelOut := by
              intro hcon
              exact hrec.1 (by rw [hsub, hcon])
            refine ⟨?_, ?_⟩
            · simp [parseExprF, hop, hsub, hne]
            · intro e ts' he
              simp [parseExprF, hop, hsub] at he
          | ok p =>
            obtain ⟨right, ts1⟩ := p
            have hlen1 := hrec.2 right ts1 hsub
            simp [ptConsume] at hlen1
            have hrec2 := ih (.exprLoop (.binop op node right)) ts1 (by simp [ptRank]; omega)
            refine ⟨?_, ?_⟩
            · simp only [parseExprF, hop, if_true, hsub, exceptBindOk]
              exact hrec2.1
            · intro e ts' he
              simp only [parseExprF, hop, if_true, hsub, exceptBindOk] at he
              have := hrec2.2 e ts' he
              simp [ptConsume] at this ⊢
              omega
        · refine ⟨by simp [parseExprF, hop], ?_⟩
          intro e ts' he
          simp [parseExprF, hop] at he
          simp [ptConsume, he.2]

lemma statementF_ok (fuel : Nat) (ts : List Str) (h : 5 * ts.length + 5 ≤ fuel) :
    statementF fuel ts ≠ .error .fuelOut ∧
    ∀ s ts', statementF fuel ts = .ok (s, ts') → ts'.length < ts.length := by
  cases ts with
  | nil => exact ⟨by simp [statementF], by intro s ts' he; simp [statementF] at he⟩
  | cons tok rest =>
    by_cases hlet : tok = str "let"
    · subst hlet
      cases rest with
      | nil => exact ⟨by simp [statementF], by intro s ts' he; simp [statementF] at he⟩
      | cons name rest2 =>
        cases heat1 : eat (some (str "=")) rest2 with
        | error e0 =>
          have hne : e0 ≠ .fuelOut := fun hcon => eat_not_fuelOut _ _ (by rw [heat1, hcon])
          refine ⟨by simp [statementF, heat1, hne], ?_⟩
          intro s ts' he
          simp [statementF, heat1] at he
        | ok p1 =>
          obtain ⟨tk1, ts3⟩ := p1
          have hc1 := eat_ok_cons heat1
          subst hc1
          have hrec := parseExprF_ok fuel .expr ts3 (by
            simp [List.length_cons, ptRank] at h ⊢
            omega)
          cases hsub : parseExprF fuel .expr ts3 with
          | error e0 =>
            have hne : e0 ≠ .fuelOut := fun hcon => hrec.1 (by rw [hsub, hcon])
            refine ⟨by simp [statementF, heat1, hsub, hne], ?_⟩
            intro s ts' he
            simp [statementF, heat1, hsub] at he
          | ok p2 =>
            obtain ⟨e, ts4⟩ := p2
            have hlen := hrec.2 e ts4 hsub
            simp [ptConsume] at hlen
            cases heat2 : eat (some (str ";")) ts4 with
            | error e0 =>
              have hne : e0 ≠ .fuelOut := fun hcon => eat_not_fuelOut _ _ (by rw [heat2, hcon])
              refine ⟨by simp [statementF, heat1, hsub, heat2, hne], ?_⟩
              intro s ts' he
              simp [statementF, heat1, hsub, heat2] at he
            | ok p3 =>
              obtain ⟨tk2, ts5⟩ := p3
              have hc2 := eat_ok_cons heat2
              refine ⟨by simp [statementF, heat1, hsub, heat2], ?_⟩
              intro s ts' he
              simp [statementF, heat1, hsub, heat2] at he
              have hl5 : ts5.length + 1 = ts4.length := by simp [hc2]
              simp [← he.2, List.length_cons]
              omega
    · by_cases hpr : tok = str "print"
      · subst hpr
        cases heat1 : eat (some (str "(")) rest with
        | error e0 =>
          have hne : e0 ≠ .fuelOut := fun hcon => eat_not_fuelOut _ _ (by rw [heat1, hcon])
          refine ⟨by simp [statementF, hlet, heat1, hne], ?_⟩
          intro s ts' he
          simp [statementF, hlet, heat1] at he
        | ok p1 =>
          obtain ⟨tk1, ts2⟩ := p1
          have hc1 := eat_ok_cons heat1
          subst hc1
          have hrec := parseExprF_ok fuel .expr ts2 (by
            simp [List.length_cons, ptRank] at h ⊢
            omega)
          cases hsub : parseExprF fuel .expr ts2 with
          | error e0 =>
            have hne : e0 ≠ .fuelOut := fun hcon => hrec.1 (by rw [hsub, hcon])
            refine ⟨by simp [statementF, hlet, heat1, hsub, hne], ?_⟩
            intro s ts' he
            simp [statementF, hlet, heat1, hsub] at he
          | ok p2 =>
            obtain ⟨e, ts3⟩ := p2
            have hlen := hrec.2 e ts3 hsub
            simp [ptConsume] at hlen
            cases heat2 : eat (some (str ")")) ts3 with
            | error e0 =>
              have hne : e0 ≠ .fuelOut := fun hcon => eat_not_fuelOut _ _ (by rw [heat2, hcon])
              refine ⟨by simp [statementF, hlet, heat1, hsub, heat2, hne], ?_⟩
              intro s ts' he
              simp [statementF, hlet, heat1, hsub, heat2] at he
            | ok p3 =>
              obtain ⟨tk2, ts4⟩ := p3
              have hc2 := eat_ok_cons heat2
              cases heat3 : eat (some (str ";")) ts4 with
              | error e0 =>
                have hne : e0 ≠ .fuelOut := fun hcon => eat_not_fuelOut _ _ (by rw [heat3, hcon])
                refine ⟨by simp [statementF, hlet, heat1, hsub, heat2, heat3, hne], ?_⟩
                intro s ts' he
                simp [statementF, hlet, heat1, hsub, heat2, heat3] at he
              | ok p4 =>
                obtain ⟨tk3, ts5⟩ := p4
                have hc3 := eat_ok_cons heat3
                refine ⟨by simp [statementF, hlet, heat1, hsub, heat2, heat3], ?_⟩
                intro s ts' he
                simp [statementF, hlet, heat1, hsub, heat2, heat3] at he
                have hl4 : ts4.length + 1 = ts3.length := by simp [hc2]
                have hl5 : ts5.length + 1 = ts4.length := by simp [hc3]
                simp [← he.2, List.length_cons]
                omega
      · refine ⟨by simp [statementF, hlet, hpr], ?_⟩
        intro s ts' he
        simp [statementF, hlet, hpr] at he

lemma parseLoopF_ok :
    ∀ (fuel : Nat) (ts : List Str), 5 * ts.length + 6 ≤ fuel →
      parseLoopF fuel ts ≠ .error .fuelOut := by
  intro fuel
  induction fuel with
  | zero =>
    intro ts h
    exfalso
    omega
  | succ n ih =>
    intro ts h
    cases ts with
    | nil => simp [parseLoopF]
    | cons t ts0 =>
      have hst := statementF_ok n (t :: ts0) (by simp [List.length_cons] at h ⊢; omega)
      cases hsub : statementF n (t :: ts0) with
      | error e0 =>
        have hne : e0 ≠ .fuelOut := fun hcon => hst.1 (by rw [hsub, hcon])
        simp [parseLoopF, hsub, hne]
      | ok p =>
        obtain ⟨s, ts1⟩ := p
        have hlen := hst.2 s ts1 hsub
        have hrec := ih ts1 (by simp [List.length_cons] at h hlen; omega)
        cases hloop : parseLoopF n ts1 with
        | error e1 =>
          have hne : e1 ≠ .fuelOut := fun hcon => hrec (by rw [hloop, hcon])
          simp [parseLoopF, hsub, hloop, hne]
        | ok l => simp [parseLoopF, hsub, hloop]

lemma parse_no_fuelOut (ts : List Str) : parse ts ≠ .error .fuelOut :=
  parseLoopF_ok (5 * ts.length + 6) ts (le_refl _)

lemma parseExprF_tokens :
    ∀ (fuel : Nat) (tgt : PTarget) (ts : List Str) (P : Str → Prop),
      (∀ t ∈ ts, P t) → PTargetOk P FourOp tgt →
      ∀ e ts', parseExprF fuel tgt ts = .ok (e, ts') →
        ExprOk P FourOp e ∧ ∀ t ∈ ts', P t := by
  intro fuel
  induction fuel with
  | zero =>
    intro tgt ts P hP htgt e ts' he
    simp [parseExprF] at he
  | succ n ih =>
    intro tgt ts P hP htgt e ts' he
    cases tgt with
    | factor =>
      cases ts with
      | nil => simp [parseExprF] at he
      | cons tok rest =>
        have hPrest : ∀ t ∈ rest, P t := fun t ht => hP t (by simp [ht])
        by_cases h1 : pyIsdigit tok
        · simp [parseExprF, h1] at he
          refine ⟨?_, ?_⟩
          · rw [← he.1]; trivial
          · rw [← he.2]; exact hPrest
        · by_cases h2 : identMatch tok
          · simp [parseExprF, h1, h2] at he
            refine ⟨?_, ?_⟩
            · rw [← he.1]; exact hP tok (by simp)
            · rw [← he.2]; exact hPrest
          · by_cases h3 : tok = str "("
            · subst h3
              have hd : pyIsdigit (str "(") = false := by decide
              have hm : identMatch (str "(") = false := by decide
              cases hsub : parseExprF n .expr rest with
              | error e0 => simp [parseExprF, hd, hm, hsub] at he
              | ok p =>
                obtain ⟨node, ts1⟩ := p
                have hsub2 := ih .expr rest P hPrest trivial node ts1 hsub
                cases heat : eat (some (str ")")) ts1 with
                | error e0 => simp [parseExprF, hd, hm, hsub, heat] at he
                | ok q =>
                  obtain ⟨tk, ts2⟩ := q
                  have hcons := eat_ok_cons heat
                  simp [parseExprF, hd, hm, hsub, heat] at he
                  refine ⟨by rw [← he.1]; exact hsub2.1, ?_⟩
                  rw [← he.2]
                  intro t ht
                  exact hsub2.2 t (by simp [hcons, ht])
            · simp [parseExprF, h1, h2, h3] at he
    | term =>
      cases hsub : parseExprF n .factor ts with
      | error e0 => simp [parseExprF, hsub] at he
      | ok p =>
        obtain ⟨node, ts1⟩ := p
        have hf := ih .factor ts P hP trivial node ts1 hsub
        simp only [parseExprF, hsub, exceptBindOk] at he
        exact ih (.termLoop node) ts1 P hf.2 hf.1 e ts' he
    | termLoop node =>
      cases ts with
      | nil =>
        simp [parseExprF] at he
        exact ⟨by rw [← he.1]; exact htgt, by rw [he.2]; exact hP⟩
      | cons op rest =>
        have hPrest : ∀ t ∈ rest, P t := fun t ht => hP t (by simp [ht])
        by_cases hop : (op = str "*" || op = str "/") = true
        · cases hsub : parseExprF n .factor rest with
          | error e0 => simp [parseExprF, hop, hsub] at he
          | ok p =>
            obtain ⟨right, ts1⟩ := p
            have hf := ih .factor rest P hPrest trivial right ts1 hsub
            simp only [parseExprF, hop, if_true, hsub, exceptBindOk] at he
            have hacc : ExprOk P FourOp (.binop op node right) := by
              refine ⟨?_, htgt, hf.1⟩
              rcases Bool.or_eq_true_iff.mp hop with h | h
              · exact Or.inr (Or.inr (Or.inl (by simpa using h)))
              · exact Or.inr (Or.inr (Or.inr (by simpa using h)))
            exact ih (.termLoop (.binop op node right)) ts1 P hf.2 hacc e ts' he
        · simp [parseExprF, hop] at he
          exact ⟨by rw [← he.1]; exact htgt, by rw [← he.2]; exact hP⟩
    | expr =>
      cases hsub : parseExprF n .term ts with
      | error e0 => simp [parseExprF, hsub] at he
      | ok p =>
        obtain ⟨node, ts1⟩ := p
        have hf := ih .term ts P hP trivial node ts1 hsub
        simp only [parseExprF, hsub, exceptBindOk] at he
        exact ih (.exprLoop node) ts1 P hf.2 hf.1 e ts' he
    | exprLoop node =>
      cases ts with
      | nil =>
        simp [parseExprF] at he
        exact ⟨by rw [← he.1]; exact htgt, by rw [he.2]; exact hP⟩
      | cons op rest =>
        have hPrest : ∀ t ∈ rest, P t := fun t ht => hP t (by simp [ht])
        by_cases hop : (op = str "+" || op = str "-") = true
        · cases hsub : parseExprF n .term rest with
          | error e0 => simp [parseExprF, hop, hsub] at he
          | ok p =>
            obtain ⟨right, ts1⟩ := p
            have hf := ih .term rest P hPrest trivial right ts1 hsub
            simp only [parseExprF, hop, if_true, hsub, exceptBindOk] at he
            have hacc : ExprOk P FourOp (.binop op node right) := by
              refine ⟨?_, htgt, hf.1⟩
              rcases Bool.or_eq_true_iff.mp hop with h | h
              · exact Or.inl (by simpa using h)
              · exact Or.inr (Or.inl (by simpa using h))
            exact ih (.exprLoop (.binop op node right)) ts1 P hf.2 hacc e ts' he
        · simp [parseExprF, hop] at he
          exact ⟨by rw [← he.1]; exact htgt, by rw [← he.2]; exact hP⟩

lemma statementF_tokens (fuel : Nat) (ts : List Str) (P : Str → Prop)
    (hP : ∀ t ∈ ts, P t) :
    ∀ s ts', statementF fuel ts = .ok (s, ts') → StmtOk P FourOp s ∧ ∀ t ∈ ts', P t := by
  intro s ts' he
  cases ts with
  | nil => simp [statementF] at he
  | cons tok rest =>
    have hPrest : ∀ t ∈ rest, P t := fun t ht => hP t (by simp [ht])
    by_cases hlet : tok = str "let"
    · subst hlet
      cases rest with
      | nil => simp [statementF] at he
      | cons name rest2 =>
        have hPr2 : ∀ t ∈ rest2, P t := fun t ht => hPrest t (by simp [ht])
        cases heat1 : eat (some (str "=")) rest2 with
        | error e0 => simp [statementF, heat1] at he
        | ok p1 =>
          obtain ⟨tk1, ts3⟩ := p1
          have hc1 := eat_ok_cons heat1
          subst hc1
          have hP3 : ∀ t ∈ ts3, P t := fun t ht => hPr2 t (by simp [ht])
          cases hsub : parseExprF fuel .expr ts3 with
          | error e0 => simp [statementF, heat1, hsub] at he
          | ok p2 =>
            obtain ⟨e, ts4⟩ := p2
            have hex := parseExprF_tokens fuel .expr ts3 P hP3 trivial e ts4 hsub
            cases heat2 : eat (some (str ";")) ts4 with
            | error e0 => simp [statementF, heat1, hsub, heat2] at he
            | ok p3 =>
              obtain ⟨tk2, ts5⟩ := p3
              have hc2 := eat_ok_cons heat2
              simp [statementF, heat1, hsub, heat2] at he
              refine ⟨?_, ?_⟩
              · rw [← he.1]
                exact ⟨hPrest name (by simp), hex.1⟩
              · rw [← he.2]
                intro t ht
                exact hex.2 t (by simp [hc2, ht])
    · by_cases hpr : tok = str "print"
      · subst hpr
        cases heat1 : eat (some (str "(")) rest with
        | error e0 => simp [statementF, hlet, heat1] at he
        | ok p1 =>
          obtain ⟨tk1, ts2⟩ := p1
          have hc1 := eat_ok_cons heat1
          subst hc1
          have hP2 : ∀ t ∈ ts2, P t := fun t ht => hPrest t (by simp [ht])
          cases hsub : parseExprF fuel .expr ts2 with
          | error e0 => simp [statementF, hlet, heat1, hsub] at he
          | ok p2 =>
            obtain ⟨e, ts3⟩ := p2
            have hex := parseExprF_tokens fuel .expr ts2 P hP2 trivial e ts3 hsub
            cases heat2 : eat (some (str ")")) ts3 with
            | error e0 => simp [statementF, hlet, heat1, hsub, heat2] at he
            | ok p3 =>
              obtain ⟨tk2, ts4⟩ := p3
              have hc2 := eat_ok_cons heat2
              cases heat3 : eat (some (str ";")) ts4 with
              | error e0 => simp [statementF, hlet, heat1, hsub, heat2, heat3] at he
              | ok p4 =>
                obtain ⟨tk3, ts5⟩ := p4
                have hc3 := eat_ok_cons heat3
                simp [statementF, hlet, heat1, hsub, heat2, heat3] at he
                refine ⟨?_, ?_⟩
                · rw [← he.1]
                  exact hex.1
                · rw [← he.2]
                  intro t ht
                  exact hex.2 t (by simp [hc2, hc3, ht])
      · simp [statementF, hlet, hpr] at he

lemma parseLoopF_tokens :
    ∀ (fuel : Nat) (ts : List Str) (P : Str → Prop), (∀ t ∈ ts, P t) →
      ∀ ast, parseLoopF fuel ts = .ok ast → ∀ s ∈ ast, StmtOk P FourOp s := by
  intro fuel
  induction fuel with
  | zero =>
    intro ts P hP ast he
    cases ts with
    | nil =>
      simp [parseLoopF] at he
      intro s hs
      rw [he] at hs
      simp at hs
    | cons t ts0 => simp [parseLoopF] at he
  | succ n ih =>
    intro ts P hP ast he
    cases ts with
    | nil =>
      simp [parseLoopF] at he
      intro s hs
      rw [he] at hs
      simp at hs
    | cons t ts0 =>
      cases hsub : statementF n (t :: ts0) with
      | error e0 => simp [parseLoopF, hsub] at he
      | ok p =>
        obtain ⟨s0, ts1⟩ := p
        have hst := statementF_tokens n (t :: ts0) P hP s0 ts1 hsub
        cases hloop : parseLoopF n ts1 with
        | error e1 => simp [parseLoopF, hsub, hloop] at he
        | ok l =>
          have hl := ih ts1 P hst.2 l hloop
          simp [parseLoopF, hsub, hloop] at he
          intro s hs
          rw [← he] at hs
          rcases List.mem_cons.mp hs with h | h
          · rw [h]; exact hst.1
          · exact hl s h

lemma parse_tokens (ts : List Str) (P : Str → Prop) (hP : ∀ t ∈ ts, P t)
    (ast : List Stmt) (he : parse ts = .ok ast) : ∀ s ∈ ast, StmtOk P FourOp s :=
  parseLoopF_tokens (5 * ts.length + 6) ts P hP ast he

/-! ## Properties of rendered numerals and temp names -/
lemma natToStrAux_digits :
    ∀ fuel n, n < fuel →
      natToStrAux fuel n ≠ [] ∧ ∀ c ∈ natToStrAux fuel n, c.isDigit = true := by
  intro fuel
  induction fuel with
  | zero => intro n h; exfalso; omega
  | succ m ih =>
    intro n h
    by_cases h10 : n < 10
    · refine ⟨by simp [natToStrAux, h10], ?_⟩
      intro c hc
      simp [natToStrAux, h10] at hc
      subst hc
      interval_cases n <;> decide
    · have hn : n / 10 < m := by omega
      have ihm := ih (n / 10) hn
      refine ⟨by simp [natToStrAux, h10, ihm.1], ?_⟩
      intro c hc
      simp [natToStrAux, h10] at hc
      rcases hc with hc | hc
      · exact ihm.2 c hc
      · subst hc
        have h9 : n % 10 < 10 := Nat.mod_lt _ (by omega)
        generalize hgen : n % 10 = k at h9 ⊢
        interval_cases k <;> decide

lemma natToStr_ne_nil (n : Nat) : natToStr n ≠ [] :=
  (natToStrAux_digits (n + 1) n (by omega)).1

lemma natToStr_digits (n : Nat) : ∀ c ∈ natToStr n, c.isDigit = true :=
  (natToStrAux_digits (n + 1) n (by omega)).2

lemma isDigit_not_ws {c : Char} (h : c.isDigit = true) : isPyWs c = false := by
  cases hc : isPyWs c with
  | false => rfl
  | true =>
    exfalso
    simp [isPyWs] at hc
    rcases hc with ((rfl | rfl) | rfl) | rfl <;> exact absurd h (by decide)

lemma cleanTok_no_space {t : Str} (h : CleanTok t) : ∀ c ∈ t, c ≠ ' ' := by
  intro c hc hsp
  subst hsp
  have := h.2 ' ' hc
  simp [isPyWs] at this

lemma isPrefixB_sub : ∀ (n s : Str), isPrefixB n s = true → ∀ c ∈ n, c ∈ s := by
  intro n
  induction n with
  | nil => intro s h c hc; simp at hc
  | cons a n' ih =>
    intro s h c hc
    cases s with
    | nil => simp [isPrefixB] at h
    | cons b s' =>
      simp [isPrefixB] at h
      rcases List.mem_cons.mp hc with rfl | hc'
      · simp [h.1]
      · exact List.mem_cons_of_mem b (ih s' h.2 c hc')

lemma isInfixB_sub : ∀ (s n : Str), isInfixB n s = true → ∀ c ∈ n, c ∈ s := by
  intro s
  induction s with
  | nil =>
    intro n h c hc
    simp [isInfixB, List.isEmpty_iff] at h
    subst h
    simp at hc
  | cons b s' ih =>
    intro n h c hc
    simp only [isInfixB, Bool.or_eq_true] at h
    rcases h with h | h
    · exact isPrefixB_sub n (b :: s') h c hc
    · exact List.mem_cons_of_mem b (ih n h c hc)

lemma generate_TAC_expr_shape (P Q : Str → Prop) :
    ∀ (e : Expr) (c : Nat), ExprOk P Q e →
      (∃ o : Opnd, (generate_TAC_expr e c).1 = renderOp o ∧ OpndOk P o) ∧
      (∃ shapes : List LineShape,
        (generate_TAC_expr e c).2.1 = shapes.map renderLine ∧
        ∀ sh ∈ shapes, ShapeOk P Q sh) := by
  intro e
  induction e with
  | num n =>
    intro c he
    exact ⟨⟨.lit n, rfl, trivial⟩, ⟨[], by simp [generate_TAC_expr], by simp⟩⟩
  | var x =>
    intro c he
    exact ⟨⟨.varOp x, rfl, he⟩, ⟨[], by simp [generate_TAC_expr], by simp⟩⟩
  | binop op l r ihl ihr =>
    intro c he
    obtain ⟨hq, hel, her⟩ := he
    obtain ⟨⟨o1, ho1, ho1k⟩, ⟨shs1, hshs1, hshs1k⟩⟩ := ihl c hel
    obtain ⟨⟨o2, ho2, ho2k⟩, ⟨shs2, hshs2, hshs2k⟩⟩ :=
      ihr (generate_TAC_expr l c).2.2 her
    refine ⟨⟨.temp ((generate_TAC_expr r (generate_TAC_expr l c).2.2).2.2 + 1), ?_, trivial⟩,
      ⟨shs1 ++ shs2 ++
        [.compute ((generate_TAC_expr r (generate_TAC_expr l c).2.2).2.2 + 1) o1 op o2], ?_, ?_⟩⟩
    · simp [generate_TAC_expr, new_temp, renderOp]
    · simp only [generate_TAC_expr, new_temp, List.map_append, List.map_cons, List.map_nil]
      rw [hshs1, hshs2, ho1, ho2]
      simp [renderLine, joinSpace, renderOp, str, List.append_assoc]
    · intro sh hsh
      simp only [List.mem_append, List.mem_singleton] at hsh
      rcases hsh with (h | h) | h
      · exact hshs1k sh h
      · exact hshs2k sh h
      · rw [h]
        exact ⟨hq, ho1k, ho2k⟩

lemma generate_TAC_shape (P Q : Str → Prop) :
    ∀ (ast : List Stmt) (c : Nat), (∀ s ∈ ast, StmtOk P Q s) →
      ∃ shapes : List LineShape,
        (generate_TAC ast c).1 = shapes.map renderLine ∧
        ∀ sh ∈ shapes, ShapeOk P Q sh := by
  intro ast
  induction ast with
  | nil => intro c h; exact ⟨[], by simp [generate_TAC], by simp⟩
  | cons s rest ih =>
    intro c h
    have hs := h s (by simp)
    have hrest : ∀ s' ∈ rest, StmtOk P Q s' := fun s' h' => h s' (by simp [h'])
    cases s with
    | assign name e =>
      obtain ⟨hname, hexpr⟩ := hs
      obtain ⟨⟨o, ho, hok⟩, ⟨shs, hshs, hshsk⟩⟩ := generate_TAC_expr_shape P Q e c hexpr
      obtain ⟨shs2, hshs2, hshs2k⟩ := ih (generate_TAC_expr e c).2.2 hrest
      refine ⟨shs ++ [.assignL name o] ++ shs2, ?_, ?_⟩
      · simp only [generate_TAC, List.map_append, List.map_cons, List.map_nil]
        rw [hshs, hshs2, ho]
        simp [renderLine, joinSpace, str, List.append_assoc]
      · intro sh hsh
        simp only [List.mem_append, List.mem_singleton] at hsh
        rcases hsh with (h1 | h1) | h1
        · exact hshsk sh h1
        · rw [h1]; exact ⟨hname, hok⟩
        · exact hshs2k sh h1
    | print e =>
      obtain ⟨⟨o, ho, hok⟩, ⟨shs, hshs, hshsk⟩⟩ := generate_TAC_expr_shape P Q e c hs
      obtain ⟨shs2, hshs2, hshs2k⟩ := ih (generate_TAC_expr e c).2.2 hrest
      refine ⟨shs ++ [.printL o] ++ shs2, ?_, ?_⟩
      · simp only [generate_TAC, List.map_append, List.map_cons, List.map_nil]
        rw [hshs, hshs2, ho]
        simp [renderLine, joinSpace, str, List.append_assoc]
      · intro sh hsh
        simp only [List.mem_append, List.mem_singleton] at hsh
        rcases hsh with (h1 | h1) | h1
        · exact hshsk sh h1
        · rw [h1]; exact hok
        · exact hshs2k sh h1

lemma memLookup_allInt {mem : Memory} {key : Str} {v : PyVal}
    (h : AllInt mem) (hl : memLookup mem key = some v) : ∃ n : ℤ, v = .vint n := by
  induction mem with
  | nil => simp [memLookup] at hl
  | cons kv rest ih =>
    obtain ⟨k, w⟩ := kv
    by_cases hk : k = key
    · simp [memLookup, hk] at hl
      rw [← hl]
      exact h (k, w) (by simp)
    · simp [memLookup, hk] at hl
      exact ih (fun kv' h' => h kv' (by simp [h'])) hl

lemma memLookup_getD_int {mem : Memory} {key : Str} (h : AllInt mem) :
    ∃ n : ℤ, (memLookup mem key).getD (.vint 0) = .vint n := by
  cases hl : memLookup mem key with
  | none => exact ⟨0, rfl⟩
  | some v =>
    obtain ⟨n, hn⟩ := memLookup_allInt h hl
    exact ⟨n, by simp [hn]⟩

lemma memSet_allInt {mem : Memory} {key : Str} {v : PyVal}
    (h : AllInt mem) (hv : ∃ n : ℤ, v = .vint n) : AllInt (memSet mem key v) := by
  induction mem with
  | nil =>
    intro kv hkv
    simp [memSet] at hkv
    rw [hkv]
    exact hv
  | cons kw rest ih =>
    obtain ⟨k, w⟩ := kw
    intro kv hkv
    by_cases hk : k = key
    · simp [memSet, hk] at hkv
      rcases hkv with hkv | hkv
      · rw [hkv]; exact hv
      · exact h kv (by simp [hkv])
    · simp [memSet, hk] at hkv
      rcases hkv with hkv | hkv
      · exact h kv (by simp [hkv])
      · exact ih (fun kv' h' => h kv' (by simp [h'])) kv hkv

lemma cleanTok_natToStr (n : Nat) : CleanTok (natToStr n) :=
  ⟨natToStr_ne_nil n, fun c hc => isDigit_not_ws (natToStr_digits n c hc)⟩

lemma renderOp_temp_eq (k : Nat) : renderOp (.temp k) = 't' :: natToStr k := rfl

lemma cleanTok_temp (k : Nat) : CleanTok (renderOp (.temp k)) := by
  rw [renderOp_temp_eq]
  refine ⟨by simp, ?_⟩
  intro c hc
  rcases List.mem_cons.mp hc with rfl | hc'
  · decide
  · exact isDigit_not_ws (natToStr_digits k c hc')

lemma renderOp_clean {o : Opnd} (h : OpndOk CleanTok o) : CleanTok (renderOp o) := by
  cases o with
  | lit n => exact cleanTok_natToStr n
  | varOp x => exact h
  | temp k => exact cleanTok_temp k

lemma safeName_clean {o : Opnd} (h : OpndOk SafeName o) : CleanTok (renderOp o) := by
  cases o with
  | lit n => exact cleanTok_natToStr n
  | varOp x => exact h.1
  | temp k => exact cleanTok_temp k

lemma fourOp_clean {op : Str} (h : FourOp op) : CleanTok op := by
  rcases h with rfl | rfl | rfl | rfl <;> exact ⟨by decide, by decide⟩

lemma threeOp_clean {op : Str} (h : ThreeOp op) : CleanTok op := by
  rcases h with rfl | rfl | rfl <;> exact ⟨by decide, by decide⟩

lemma pyIsdigit_natToStr (n : Nat) : pyIsdigit (natToStr n) = true := by
  simp [pyIsdigit, List.isEmpty_iff, natToStr_ne_nil n]
  intro c hc
  exact natToStr_digits n c hc

lemma head_ne_of_ne {s r : Str} (h : s.head? ≠ r.head?) : s ≠ r :=
  fun hc => h (hc ▸ rfl)

set_option maxRecDepth 8192 in
lemma temp_not_special (k : Nat) : renderOp (.temp k) ∉ specialAtoms := by
  intro hmem
  have hdisc : ∀ s ∈ specialAtoms, s.head? = some 't' → s.tail.all Char.isDigit = false := by
    decide
  have h2 := hdisc _ hmem (by simp [renderOp_temp_eq])
  rw [renderOp_temp_eq] at h2
  simp only [List.tail_cons] at h2
  have h3 : (natToStr k).all Char.isDigit = true := by
    rw [List.all_eq_true]
    intro c hc
    exact natToStr_digits k c hc
  rw [h3] at h2
  exact Bool.noConfusion h2

lemma pyIsdigit_temp (k : Nat) : pyIsdigit (renderOp (.temp k)) = false := by
  rw [renderOp_temp_eq]
  simp [pyIsdigit]

lemma pyKeywordConst_none {x : Str} (h : x ∉ specialAtoms) : pyKeywordConst x = none := by
  have h1 : x ≠ str "True" := fun hc => h (by rw [hc]; simp [specialAtoms])
  have h2 : x ≠ str "False" := fun hc => h (by rw [hc]; simp [specialAtoms])
  have h3 : x ≠ str "None" := fun hc => h (by rw [hc]; simp [specialAtoms])
  have h4 : x ≠ str "__debug__" := fun hc => h (by rw [hc]; simp [specialAtoms])
  simp [pyKeywordConst, h1, h2, h3, h4]

lemma not_builtin {x : Str} (h : x ∉ specialAtoms) : x ∉ pyBuiltinNames := by
  intro hc
  exact h (by simp [specialAtoms, hc])

lemma evalAtom_opnd {mem : Memory} (h : AllInt mem) {o : Opnd} (ho : OpndOk SafeName o) :
    (∃ n : ℤ, evalAtom mem (renderOp o) = .ok (.vint n)) ∨
      evalAtom mem (renderOp o) = .error () := by
  cases o with
  | lit n =>
    by_cases hz : leadingZero (natToStr n)
    · right
      simp [evalAtom, renderOp, pyIsdigit_natToStr, hz]
    · left
      exact ⟨strToNat (natToStr n), by simp [evalAtom, renderOp, pyIsdigit_natToStr, hz]⟩
  | varOp x =>
    obtain ⟨hcl, hsp⟩ := ho
    by_cases hd : pyIsdigit x
    · by_cases hz : leadingZero x
      · right; simp [evalAtom, renderOp, hd, hz]
      · left; exact ⟨strToNat x, by simp [evalAtom, renderOp, hd, hz]⟩
    · have hkw := pyKeywordConst_none hsp
      cases hl : memLookup mem x with
      | some v =>
        obtain ⟨n, hn⟩ := memLookup_allInt h hl
        left
        exact ⟨n, by simp [evalAtom, renderOp, hd, hkw, hl, hn]⟩
      | none =>
        right
        simp [evalAtom, renderOp, hd, hkw, hl, not_builtin hsp]
  | temp k =>
    have hd := pyIsdigit_temp k
    have hkw := pyKeywordConst_none (temp_not_special k)
    cases hl : memLookup mem (renderOp (.temp k)) with
    | some v =>
      obtain ⟨n, hn⟩ := memLookup_allInt h hl
      left
      exact ⟨n, by simp [evalAtom, hd, hkw, hl, hn]⟩
    | none =>
      right
      simp [evalAtom, hd, hkw, hl, not_builtin (temp_not_special k)]

lemma pyArith_int3 {op : Str} (hop : ThreeOp op) (a b : ℤ) :
    pyArith op (.vint a) (.vint b) = .ok (.vint (intOp op a b)) := by
  rcases hop with rfl | rfl | rfl <;>
    · rw [pyArith, if_neg (by decide), if_pos (by decide)]
      simp [asInt]

lemma isPrefixB_refl : ∀ n : Str, isPrefixB n n = true := by
  intro n
  induction n with
  | nil => rfl
  | cons a n' ih => simp [isPrefixB, ih]

lemma isInfixB_self (n : Str) : isInfixB n n = true := by
  cases n with
  | nil => rfl
  | cons a n' => simp [isInfixB, isPrefixB_refl]

lemma isInfixB_mem {n : Str} {ps : List Str} (hne : n ≠ [])
    (hsp : ∀ c ∈ n, c ≠ ' ') (hmem : n ∈ ps) :
    isInfixB n (joinSpace ps) = true := by
  rw [isInfixB_join n hne hsp]
  exact List.any_eq_true.mpr ⟨n, hmem, isInfixB_self n⟩

lemma evalOr0_single {mem : Memory} (h : AllInt mem) {v : Opnd} (hv : OpndOk SafeName v) :
    ∃ n : ℤ, evalOr0 mem (renderOp v) = .vint n := by
  have hsplit : pySplitWs (renderOp v) = [renderOp v] := by
    have := pySplitWs_join [renderOp v]
      (by intro p hp; simp at hp; rw [hp]; exact safeName_clean hv)
    simpa [joinSpace] using this
  rcases evalAtom_opnd h hv with ⟨n, hn⟩ | herr
  · exact ⟨n, by simp [evalOr0, pyEval, hsplit, hn]⟩
  · exact ⟨0, by simp [evalOr0, pyEval, hsplit, herr]⟩

lemma evalOr0_triple {mem : Memory} (h : AllInt mem) {l r : Opnd} {op : Str}
    (hl : OpndOk SafeName l) (hr : OpndOk SafeName r) (hop : ThreeOp op) :
    ∃ n : ℤ, evalOr0 mem (joinSpace [renderOp l, op, renderOp r]) = .vint n := by
  have hsplit : pySplitWs (joinSpace [renderOp l, op, renderOp r]) =
      [renderOp l, op, renderOp r] := by
    refine pySplitWs_join _ ?_
    intro p hp
    simp at hp
    rcases hp with rfl | rfl | rfl
    · exact safeName_clean hl
    · exact threeOp_clean hop
    · exact safeName_clean hr
  rcases evalAtom_opnd h hl with ⟨n1, hn1⟩ | herr1
  · rcases evalAtom_opnd h hr with ⟨n2, hn2⟩ | herr2
    · exact ⟨intOp op n1 n2, by simp [evalOr0, pyEval, hsplit, hn1, hn2, pyArith_int3 hop]⟩
    · exact ⟨0, by simp [evalOr0, pyEval, hsplit, hn1, herr2]⟩
  · exact ⟨0, by simp [evalOr0, pyEval, hsplit, herr1]⟩

lemma findSep_computeLine (T L O R : Str) (hT : CleanTok T) :
    findSep (joinSpace [T, str "=", L, O, R]) = some (T, joinSpace [L, O, R]) := by
  show findSep (T ++ ' ' :: '=' :: ' ' :: joinSpace [L, O, R]) = _
  rw [findSep_word T (cleanTok_no_space hT), findSep_sep]
  simp

lemma findSep_assignLine (name V : Str) (hname : CleanTok name) :
    findSep (joinSpace [name, str "=", V]) = some (name, V) := by
  show findSep (name ++ ' ' :: '=' :: ' ' :: V) = _
  rw [findSep_word name (cleanTok_no_space hname), findSep_sep]
  simp

lemma hasSep_single {V : Str} (hV : CleanTok V) : hasSepB V = false := by
  simp [hasSepB, findSep_none_of_spaceless V (cleanTok_no_space hV)]

lemma hasSep_triple {L O R : Str} (hL : CleanTok L) (hO : CleanTok O) (hR : CleanTok R)
    (hOne : O ≠ str "=") : hasSepB (joinSpace [L, O, R]) = false := by
  show hasSepB (L ++ ' ' :: (O ++ ' ' :: R)) = false
  rw [hasSepB, findSep_word L (cleanTok_no_space hL),
    findSep_space_notsep _ (isPrefixB_eqsp_false_append O (' ' :: R) hO.1 (cleanTok_no_space hO) hOne),
    findSep_word O (cleanTok_no_space hO),
    findSep_space_notsep _ (isPrefixB_eqsp_false R (cleanTok_no_space hR)),
    findSep_none_of_spaceless R (cleanTok_no_space hR)]
  simp

lemma threeOp_ne_eq {op : Str} (hop : ThreeOp op) : op ≠ str "=" := by
  rcases hop with rfl | rfl | rfl <;> decide

lemma interpStep_shape (st : Memory × List PyVal) (sh : LineShape)
    (hmem : AllInt st.1) (hout : AllIntList st.2)
    (hsh : ShapeOk SafeName ThreeOp sh) :
    ∃ st', interpStep st (renderLine sh) = .ok st' ∧ AllInt st'.1 ∧ AllIntList st'.2 := by
  obtain ⟨mem, out⟩ := st
  simp only [Prod.fst, Prod.snd] at hmem hout
  cases sh with
  | compute t l op r =>
    obtain ⟨hop, hl, hr⟩ := hsh
    have hparts : ∀ p ∈ [renderOp (.temp t), str "=", renderOp l, op, renderOp r], CleanTok p := by
      intro p hp
      simp at hp
      rcases hp with rfl | rfl | rfl | rfl | rfl
      · exact cleanTok_temp t
      · exact ⟨by decide, by decide⟩
      · exact safeName_clean hl
      · exact threeOp_clean hop
      · exact safeName_clean hr
    have heq : isInfixB (str "=") (renderLine (.compute t l op r)) = true := by
      rw [renderLine]
      exact isInfixB_mem (by decide) (by decide) (by simp)
    cases hpr : isInfixB (str "PRINT") (renderLine (.compute t l op r)) with
    | true =>
      have hsplit : pySplitWs (renderLine (.compute t l op r)) =
          [renderOp (.temp t), str "=", renderOp l, op, renderOp r] := by
        rw [renderLine]
        exact pySplitWs_join _ hparts
      obtain ⟨n, hn⟩ := @memLookup_getD_int mem (str "=") hmem
      refine ⟨(mem, out ++ [(memLookup mem (str "=")).getD (.vint 0)]), ?_, hmem, ?_⟩
      · simp [interpStep, heq, hpr, hsplit]
      · intro v hv
        rcases List.mem_append.mp hv with hv | hv
        · exact hout v hv
        · simp at hv
          exact ⟨n, by rw [hv, hn]⟩
    | false =>
      have hfind : findSep (renderLine (.compute t l op r)) =
          some (renderOp (.temp t), joinSpace [renderOp l, op, renderOp r]) := by
        rw [renderLine]
        exact findSep_computeLine _ _ _ _ (cleanTok_temp t)
      have hhas : hasSepB (joinSpace [renderOp l, op, renderOp r]) = false :=
        hasSep_triple (safeName_clean hl) (threeOp_clean hop) (safeName_clean hr)
          (threeOp_ne_eq hop)
      obtain ⟨n, hn⟩ := evalOr0_triple hmem hl hr hop
      refine ⟨(memSet mem (renderOp (.temp t))
          (evalOr0 mem (joinSpace [renderOp l, op, renderOp r])), out), ?_,
        memSet_allInt hmem ⟨n, hn⟩, hout⟩
      simp [interpStep, heq, hpr, hfind, hhas]
  | assignL name v =>
    obtain ⟨hname, hv⟩ := hsh
    have heq : isInfixB (str "=") (renderLine (.assignL name v)) = true := by
      rw [renderLine]
      exact isInfixB_mem (by decide) (by decide) (by simp)
    cases hpr : isInfixB (str "PRINT") (renderLine (.assignL name v)) with
    | true =>
      have hsplit : pySplitWs (renderLine (.assignL name v)) =
          [name, str "=", renderOp v] := by
        rw [renderLine]
        refine pySplitWs_join _ ?_
        intro p hp
        simp at hp
        rcases hp with rfl | rfl | rfl
        · exact hname.1
        · exact ⟨by decide, by decide⟩
        · exact safeName_clean hv
      obtain ⟨n, hn⟩ := @memLookup_getD_int mem (str "=") hmem
      refine ⟨(mem, out ++ [(memLookup mem (str "=")).getD (.vint 0)]), ?_, hmem, ?_⟩
      · simp [interpStep, heq, hpr, hsplit]
      · intro w hw
        rcases List.mem_append.mp hw with hw | hw
        · exact hout w hw
        · simp at hw
          exact ⟨n, by rw [hw, hn]⟩
    | false =>
      have hfind : findSep (renderLine (.assignL name v)) = some (name, renderOp v) := by
        rw [renderLine]
        exact findSep_assignLine _ _ hname.1
      have hhas : hasSepB (renderOp v) = false := hasSep_single (safeName_clean hv)
      obtain ⟨n, hn⟩ := evalOr0_single hmem hv
      refine ⟨(memSet mem name (evalOr0 mem (renderOp v)), out), ?_,
        memSet_allInt hmem ⟨n, hn⟩, hout⟩
      simp [interpStep, heq, hpr, hfind, hhas]
  | printL v =>
    have hprt : isInfixB (str "PRINT") (renderLine (.printL v)) = true := by
      rw [renderLine]
      exact isInfixB_mem (by decide) (by decide) (by simp)
    have hsplit : pySplitWs (renderLine (.printL v)) = [str "PRINT", renderOp v] := by
      rw [renderLine]
      refine pySplitWs_join _ ?_
      intro p hp
      simp at hp
      rcases hp with rfl | rfl
      · exact ⟨by decide, by decide⟩
      · exact safeName_clean hsh
    obtain ⟨n, hn⟩ := @memLookup_getD_int mem (renderOp v) hmem
    refine ⟨(mem, out ++ [(memLookup mem (renderOp v)).getD (.vint 0)]), ?_, hmem, ?_⟩
    · simp [interpStep, hprt, hsplit]
    · intro w hw
      rcases List.mem_append.mp hw with hw | hw
      · exact hout w hw
      · simp at hw
        exact ⟨n, by rw [hw, hn]⟩

lemma runTac_shapes :
    ∀ (shapes : List LineShape) (st : Memory × List PyVal),
      AllInt st.1 → AllIntList st.2 →
      (∀ sh ∈ shapes, ShapeOk SafeName ThreeOp sh) →
      ∃ st', runTac (shapes.map renderLine) st = .ok st' ∧ AllInt st'.1 ∧ AllIntList st'.2 := by
  intro shapes
  induction shapes with
  | nil =>
    intro st h1 h2 h3
    exact ⟨st, rfl, h1, h2⟩
  | cons sh rest ih =>
    intro st h1 h2 h3
    obtain ⟨st1, hstep, hm1, ho1⟩ := interpStep_shape st sh h1 h2 (h3 sh (by simp))
    obtain ⟨st2, hrun, hm2, ho2⟩ := ih st1 hm1 ho1 (fun s hs => h3 s (by simp [hs]))
    exact ⟨st2, by simp [runTac, hstep, hrun], hm2, ho2⟩

/-! ## Shape of `generate_ASM` output on generated TAC -/
lemma genAsmLine_shape (sh : LineShape) (h : ShapeOk CleanTok FourOp sh) :
    ∃ a b, genAsmLine (renderLine sh) = .ok [a, b] := by
  cases sh with
  | compute t l op r =>
    obtain ⟨hop, hl, hr⟩ := h
    have hsplit : pySplitWs (renderLine (.compute t l op r)) =
        [renderOp (.temp t), str "=", renderOp l, op, renderOp r] := by
      rw [renderLine]
      refine pySplitWs_join _ ?_
      intro p hp
      simp at hp
      rcases hp with rfl | rfl | rfl | rfl | rfl
      · exact cleanTok_temp t
      · exact ⟨by decide, by decide⟩
      · exact renderOp_clean hl
      · exact fourOp_clean hop
      · exact renderOp_clean hr
    by_cases hp : str "PRINT" ∈ [renderOp (.temp t), str "=", renderOp l, op, renderOp r]
    · refine ⟨str "LOAD " ++ str "=", str "OUT", ?_⟩
      have hcond : ¬(str "=" ∈ [renderOp (.temp t), str "=", renderOp l, op, renderOp r] ∧
          str "PRINT" ∉ [renderOp (.temp t), str "=", renderOp l, op, renderOp r]) := by
        intro hc
        exact hc.2 hp
      simp only [genAsmLine, hsplit]
      rw [if_neg hcond, if_pos hp]
    · refine ⟨str "LOAD " ++ joinSpace [renderOp l, op, renderOp r],
        str "STORE " ++ renderOp (.temp t), ?_⟩
      have hcond : str "=" ∈ [renderOp (.temp t), str "=", renderOp l, op, renderOp r] ∧
          str "PRINT" ∉ [renderOp (.temp t), str "=", renderOp l, op, renderOp r] :=
        ⟨by simp, hp⟩
      simp only [genAsmLine, hsplit]
      rw [if_pos hcond]
      simp
  | assignL name v =>
    obtain ⟨hname, hv⟩ := h
    have hsplit : pySplitWs (renderLine (.assignL name v)) = [name, str "=", renderOp v] := by
      rw [renderLine]
      refine pySplitWs_join _ ?_
      intro p hp
      simp at hp
      rcases hp with rfl | rfl | rfl
      · exact hname
      · exact ⟨by decide, by decide⟩
      · exact renderOp_clean hv
    by_cases hp : str "PRINT" ∈ [name, str "=", renderOp v]
    · refine ⟨str "LOAD " ++ str "=", str "OUT", ?_⟩
      have hcond : ¬(str "=" ∈ [name, str "=", renderOp v] ∧
          str "PRINT" ∉ [name, str "=", renderOp v]) := fun hc => hc.2 hp
      simp only [genAsmLine, hsplit]
      rw [if_neg hcond, if_pos hp]
    · refine ⟨str "LOAD " ++ joinSpace [renderOp v], str "STORE " ++ name, ?_⟩
      have hcond : str "=" ∈ [name, str "=", renderOp v] ∧
          str "PRINT" ∉ [name, str "=", renderOp v] := ⟨by simp, hp⟩
      simp only [genAsmLine, hsplit]
      rw [if_pos hcond]
      simp
  | printL v =>
    have hsplit : pySplitWs (renderLine (.printL v)) = [str "PRINT", renderOp v] := by
      rw [renderLine]
      refine pySplitWs_join _ ?_
      intro p hp
      simp at hp
      rcases hp with rfl | rfl
      · exact ⟨by decide, by decide⟩
      · exact renderOp_clean h
    refine ⟨str "LOAD " ++ renderOp v, str "OUT", ?_⟩
    have hcond : ¬(str "=" ∈ [str "PRINT", renderOp v] ∧
        str "PRINT" ∉ [str "PRINT", renderOp v]) := fun hc => hc.2 (by simp)
    simp only [genAsmLine, hsplit]
    rw [if_neg hcond, if_pos (by simp)]

lemma generate_ASM_shapes :
    ∀ shapes : List LineShape, (∀ sh ∈ shapes, ShapeOk CleanTok FourOp sh) →
      ∃ asm, generate_ASM (shapes.map renderLine) = .ok asm ∧
        asm.length = 2 * shapes.length := by
  intro shapes
  induction shapes with
  | nil => intro h; exact ⟨[], rfl, rfl⟩
  | cons sh rest ih =>
    intro h
    obtain ⟨a, b, hab⟩ := genAsmLine_shape sh (h sh (by simp))
    obtain ⟨asm, hasm, hlen⟩ := ih (fun s hs => h s (by simp [hs]))
    refine ⟨[a, b] ++ asm, ?_, ?_⟩
    · simp [generate_ASM, hab, hasm]
    · simp [hlen]
      omega

/-! ## Claim C9 -/
/-- C9: `parse(tokenize("let x = 1 + 2 * 3;"))` yields exactly one `Assign`
statement for `x` whose expression is
`BinaryOp('+', NumberLiteral(1), BinaryOp('*', NumberLiteral(2), NumberLiteral(3)))`:
`*` binds tighter than `+`. -/
theorem c9_precedence :
    parse (tokenize (str "let x = 1 + 2 * 3;")) =
      .ok [.assign (str "x")
        (.binop (str "+") (.num 1) (.binop (str "*") (.num 2) (.num 3)))] := by
  decide

/-! ## Claim C8 (corrected) -/
/-- C8, counterexample: the pipeline on `let x = 2 + 3; print(x);` does print
`[5]` and maps `x` to `5`, but the final memory is not `{x: 5}`: it also
retains the temporary, mapping `t1` to `5`. -/
theorem c8_counterexample :
    run (generate_TAC
        [.assign (str "x") (.binop (str "+") (.num 2) (.num 3)), .print (.var (str "x"))] 0).1 =
      .ok ([(str "t1", .vint 5), (str "x", .vint 5)], [.vint 5]) ∧
    memLookup [(str "t1", PyVal.vint 5), (str "x", PyVal.vint 5)] (str "t1") =
      some (.vint 5) ∧
    ([(str "t1", PyVal.vint 5), (str "x", PyVal.vint 5)] : Memory) ≠
      [(str "x", PyVal.vint 5)] := by
  decide

/-- C8 as amended: compiling and running `let x = 2 + 3; print(x);` yields
printed sequence `[5]` and final memory `{t1: 5, x: 5}` — `x` holds `5`,
and the temporary `t1` also remains in memory with value `5`. -/
theorem c8_pipeline_result :
    parse (tokenize (str "let x = 2 + 3; print(x);")) =
      .ok [.assign (str "x") (.binop (str "+") (.num 2) (.num 3)), .print (.var (str "x"))] ∧
    (generate_TAC
        [.assign (str "x") (.binop (str "+") (.num 2) (.num 3)), .print (.var (str "x"))] 0).1 =
      [str "t1 = 2 + 3", str "x = t1", str "PRINT x"] ∧
    run [str "t1 = 2 + 3", str "x = t1", str "PRINT x"] =
      .ok ([(str "t1", .vint 5), (str "x", .vint 5)], [.vint 5]) := by
  decide

/-! ## Claim C4 (corrected) -/
/-- C4, counterexample: `parse(tokenize("let 5 = 1;"))` does not raise a
`SyntaxError` — it succeeds and produces an `Assign` node whose variable
name is the non-identifier token `5`. -/
theorem c4_counterexample :
    parse (tokenize (str "let 5 = 1;")) = .ok [.assign (str "5") (.num 1)] := by
  decide

/-- C4 as amended: after `let`, the parser consumes the name with `eat()`
(no expected value), so **any** token is accepted as the variable name of
an assignment — no identifier check is performed. -/
theorem c4_any_name_token (t : Str) :
    parse [str "let", t, str "=", str "1", str ";"] = .ok [.assign t (.num 1)] := rfl

/-! ## Claim C2 (corrected) -/
/-- C2, counterexample: the temp counter is a module-level global that
`generate_TAC` never resets, so compiling the same AST twice in one
process yields different instruction sequences — the second compile of
`let x = 2 + 3;` numbers its temp `t2`, not `t1`. -/
theorem c2_counterexample :
    (generate_TAC [.assign (str "x") (.binop (str "+") (.num 2) (.num 3))]
        ((generate_TAC [.assign (str "x") (.binop (str "+") (.num 2) (.num 3))] 0).2)).1 ≠
      (generate_TAC [.assign (str "x") (.binop (str "+") (.num 2) (.num 3))] 0).1 := by
  decide

/-- C2 as amended: two compiles of the same AST produce identical TAC when
the AST contains no binary operation (no temporaries are generated, so
the leaked counter value is irrelevant); with a binary operation the temp
numbering continues across compiles and the sequences differ. -/
theorem c2_no_temp_independent (ast : List Stmt) (c c' : Nat)
    (h : ∀ s ∈ ast, NoBinop s) :
    (generate_TAC ast c).1 = (generate_TAC ast c').1 := by
  induction ast generalizing c c' with
  | nil => rfl
  | cons s rest ih =>
    have hs := h s (by simp)
    have hrest := fun s' h' => h s' (List.mem_cons_of_mem s h')
    cases s with
    | assign name e =>
      cases e with
      | num n => simp [generate_TAC, generate_TAC_expr, ih c c' hrest]
      | var x => simp [generate_TAC, generate_TAC_expr, ih c c' hrest]
      | binop op l r => exact absurd hs (by simp [NoBinop, NoBinopE])
    | print e =>
      cases e with
      | num n => simp [generate_TAC, generate_TAC_expr, ih c c' hrest]
      | var x => simp [generate_TAC, generate_TAC_expr, ih c c' hrest]
      | binop op l r => exact absurd hs (by simp [NoBinop, NoBinopE])

/-- C2 witness: for the temp-free program `let x = 1;` the first and a
later compile (counter already at 5) emit the same TAC. -/
theorem c2_witness :
    (generate_TAC [.assign (str "x") (.num 1)] 0).1 =
      (generate_TAC [.assign (str "x") (.num 1)] 5).1 :=
  c2_no_temp_independent [.assign (str "x") (.num 1)] 0 5 (by
    intro s hs
    simp at hs
    rw [hs]
    trivial)

/-! ## Claim C10 (confirmed) -/
/-- C10: `generate_ASM` classifies each TAC line by token content, not by
instruction kind: any line whose token list contains `PRINT` is emitted as
`LOAD <second token>` + `OUT`, and only lines containing `=` with no
`PRINT` token become `LOAD`/`STORE`; hence `let PRINT = 5;` compiles to
TAC `PRINT = 5`, which is emitted as `LOAD =` followed by `OUT`. -/
theorem c10_asm_token_classification :
    (∀ (line p0 p1 : Str) (rest : List Str),
        pySplitWs line = p0 :: p1 :: rest → str "PRINT" ∈ p0 :: p1 :: rest →
        genAsmLine line = .ok [str "LOAD " ++ p1, str "OUT"]) ∧
    (∀ (line p0 : Str) (rest : List Str),
        pySplitWs line = p0 :: rest → str "=" ∈ p0 :: rest → str "PRINT" ∉ p0 :: rest →
        genAsmLine line = .ok [str "LOAD " ++ joinSpace (rest.drop 1), str "STORE " ++ p0]) ∧
    parse (tokenize (str "let PRINT = 5;")) = .ok [.assign (str "PRINT") (.num 5)] ∧
    (generate_TAC [.assign (str "PRINT") (.num 5)] 0).1 = [str "PRINT = 5"] ∧
    generate_ASM [str "PRINT = 5"] = .ok [str "LOAD =", str "OUT"] := by
  refine ⟨?_, ?_, by decide, by decide, by decide⟩
  · intro line p0 p1 rest hsplit hm
    have hcond : ¬(str "=" ∈ p0 :: p1 :: rest ∧ str "PRINT" ∉ p0 :: p1 :: rest) :=
      fun hc => hc.2 hm
    simp only [genAsmLine, hsplit]
    rw [if_neg hcond, if_pos hm]
  · intro line p0 rest hsplit hm hnp
    simp only [genAsmLine, hsplit]
    rw [if_pos ⟨hm, hnp⟩]
    simp

/-- C10 witness: the generic `PRINT`-token rule applied to the concrete
line `PRINT x`. -/
theorem c10_witness :
    genAsmLine (str "PRINT x") = .ok [str "LOAD " ++ str "x", str "OUT"] :=
  c10_asm_token_classification.1 (str "PRINT x") (str "PRINT") (str "x") []
    (by decide) (by decide)

/-! ## Claim C1 (corrected) -/
/-- C1, counterexample: on the tokens of `let x =` (input ending before the
expression) the parser fails with an `AttributeError` (`peek()` returns
`None` and `factor` calls `None.isdigit()`), not with a `SyntaxError`. -/
theorem c1_counterexample :
    parse (tokenize (str "let x =")) =
      .error (.attrErr (str "NoneType object has no attribute isdigit")) ∧
    ∀ msg, ParseErr.attrErr (str "NoneType object has no attribute isdigit") ≠
      ParseErr.synErr msg :=
  ⟨by decide, fun _ h => ParseErr.noConfusion h⟩

/-- C1 as amended: on any token mismatch the parser raises a `SyntaxError`
carrying the expected-vs-actual detail (or "end of input"), except that
reaching the end of input where a `factor` is expected raises an
`AttributeError`; no other kind of exception ever escapes `parse`. -/
theorem c1_parse_error_kinds (ts : List Str) (e : ParseErr)
    (h : parse ts = .error e) :
    (∃ m, e = ParseErr.synErr m) ∨ (∃ m, e = ParseErr.attrErr m) := by
  cases e with
  | fuelOut => exact absurd h (parse_no_fuelOut ts)
  | synErr m => exact Or.inl ⟨m, rfl⟩
  | attrErr m => exact Or.inr ⟨m, rfl⟩

/-- C1 witness: the error-kind theorem applied to a concrete failing parse
(`print` with no opening parenthesis: end of input inside `eat`). -/
theorem c1_witness :
    (∃ m, ParseErr.synErr (str "Unexpected end of input") = ParseErr.synErr m) ∨
    (∃ m, ParseErr.synErr (str "Unexpected end of input") = ParseErr.attrErr m) :=
  c1_parse_error_kinds [str "print"] (.synErr (str "Unexpected end of input")) (by decide)

/-! ## Claim C7 (corrected) -/
/-- C7, counterexample: for the parsed program `let PRINT = 5;` the single
TAC line is an `Assign`, yet `generate_ASM` emits `LOAD =` followed by
`OUT` — not a `Load` followed by a `Store` — because classification is by
token content.  (The 2x length relationship still holds.) -/
theorem c7_counterexample :
    parse (tokenize (str "let PRINT = 5;")) = .ok [.assign (str "PRINT") (.num 5)] ∧
    (generate_TAC [.assign (str "PRINT") (.num 5)] 0).1 = [str "PRINT = 5"] ∧
    generate_ASM [str "PRINT = 5"] = .ok [str "LOAD =", str "OUT"] ∧
    generate_ASM [str "PRINT = 5"] ≠ .ok [str "LOAD 5", str "STORE PRINT"] := by
  decide

/-- C7 as amended: for every TAC sequence produced by `generate_TAC` from a
parsed AST, `generate_ASM` translates each TAC line independently and in
order into exactly two ASM instructions, so the ASM sequence is exactly
twice as long as the TAC sequence; `Compute`/`Assign` lines become
`LOAD`/`STORE` unless their token content includes `PRINT`, in which case
they are emitted as a print line (`LOAD`/`OUT`). -/
theorem c7_asm_double_length (ts : List Str) (ast : List Stmt) (c : Nat)
    (hclean : ∀ t ∈ ts, CleanTok t) (hacc : parse ts = .ok ast) :
    ∃ asm, generate_ASM (generate_TAC ast c).1 = .ok asm ∧
      asm.length = 2 * (generate_TAC ast c).1.length := by
  have hok := parse_tokens ts CleanTok hclean ast hacc
  obtain ⟨shapes, hsh, hshk⟩ := generate_TAC_shape CleanTok FourOp ast c hok
  obtain ⟨asm, hasm, hlen⟩ := generate_ASM_shapes shapes hshk
  refine ⟨asm, by rw [hsh]; exact hasm, ?_⟩
  rw [hsh]
  simpa using hlen

/-- C7 witness: the doubling theorem applied to the parse of
`let x = 2 + 3; print(x);` (3 TAC lines, 6 ASM instructions). -/
theorem c7_witness :
    ∃ asm, generate_ASM (generate_TAC
        [.assign (str "x") (.binop (str "+") (.num 2) (.num 3)), .print (.var (str "x"))] 0).1 =
      .ok asm ∧
      asm.length = 2 * (generate_TAC
        [.assign (str "x") (.binop (str "+") (.num 2) (.num 3)), .print (.var (str "x"))] 0).1.length :=
  c7_asm_double_length (tokenize (str "let x = 2 + 3; print(x);"))
    [.assign (str "x") (.binop (str "+") (.num 2) (.num 3)), .print (.var (str "x"))] 0
    (by decide) (by decide)

/-! ## Claim C3 (corrected) -/
/-- C3, counterexample: the accepted program `let x = 5 / 2; print(x);`
stores and prints the Python float `2.5` (the exact fraction 5/2), not an
integer: Python 3's `/` is float division inside `eval`. -/
theorem c3_counterexample :
    parse (tokenize (str "let x = 5 / 2; print(x);")) =
      .ok [.assign (str "x") (.binop (str "/") (.num 5) (.num 2)), .print (.var (str "x"))] ∧
    run (generate_TAC
        [.assign (str "x") (.binop (str "/") (.num 5) (.num 2)), .print (.var (str "x"))] 0).1 =
      .ok ([(str "t1", .vfloat 5 2), (str "x", .vfloat 5 2)], [.vfloat 5 2]) ∧
    ∀ n : ℤ, PyVal.vfloat 5 2 ≠ PyVal.vint n :=
  ⟨by decide, by decide, fun _ h => PyVal.noConfusion h⟩

/-- C3 as amended: for every accepted program that avoids the `/` operator
and does not reference Python keyword-constant or builtin names, running
the generated TAC yields a memory mapping each name to an integer and a
printed sequence of integers; with `/` the stored and printed values are
floats (e.g. `let x = 5 / 2; print(x);` yields 2.5). -/
theorem c3_int_values (ts : List Str) (ast : List Stmt) (c : Nat)
    (hacc : parse ts = .ok ast)
    (hsafe : ∀ s ∈ ast, StmtOk SafeName ThreeOp s) :
    ∃ mem out, run (generate_TAC ast c).1 = .ok (mem, out) ∧
      (∀ kv ∈ mem, ∃ n : ℤ, kv.2 = PyVal.vint n) ∧
      (∀ v ∈ out, ∃ n : ℤ, v = PyVal.vint n) := by
  obtain ⟨shapes, hsh, hshk⟩ := generate_TAC_shape SafeName ThreeOp ast c hsafe
  obtain ⟨⟨mem, out⟩, hrun, hm, ho⟩ :=
    runTac_shapes shapes ([], []) (by intro kv hkv; simp at hkv)
      (by intro v hv; simp at hv) hshk
  exact ⟨mem, out, by rw [hsh]; exact hrun, hm, ho⟩

/-- C3 witness: the integrality theorem applied to the parse of
`let x = 2 + 3; print(x);`. -/
theorem c3_witness :
    ∃ mem out, run (generate_TAC
        [.assign (str "x") (.binop (str "+") (.num 2) (.num 3)), .print (.var (str "x"))] 0).1 =
      .ok (mem, out) ∧
      (∀ kv ∈ mem, ∃ n : ℤ, kv.2 = PyVal.vint n) ∧
      (∀ v ∈ out, ∃ n : ℤ, v = PyVal.vint n) :=
  c3_int_values (tokenize (str "let x = 2 + 3; print(x);"))
    [.assign (str "x") (.binop (str "+") (.num 2) (.num 3)), .print (.var (str "x"))] 0
    (by decide) (by decide)

/-! ## Claim C6 (confirmed) -/
/-- C6: for every TAC `Print` line the interpreter looks the operand text up
as a name in runtime memory and appends the found value, defaulting to
zero when absent; consequently `print(7);` — whose TAC line is `PRINT 7`
— outputs `0`, not `7`. -/
theorem c6_print_lookup :
    (∀ (mem : Memory) (out : List PyVal) (v : Str), v ≠ [] →
      (∀ c ∈ v, isPyWs c = false) →
      interpStep (mem, out) (str "PRINT " ++ v) =
        .ok (mem, out ++ [(memLookup mem v).getD (.vint 0)])) ∧
    parse (tokenize (str "print(7);")) = .ok [.print (.num 7)] ∧
    (generate_TAC [.print (.num 7)] 0).1 = [str "PRINT 7"] ∧
    run [str "PRINT 7"] = .ok ([], [.vint 0]) := by
  refine ⟨?_, by decide, by decide, by decide⟩
  intro mem out v hne hcl
  have hline : str "PRINT " ++ v = joinSpace [str "PRINT", v] := by
    simp [joinSpace, str]
  have hprt : isInfixB (str "PRINT") (joinSpace [str "PRINT", v]) = true :=
    isInfixB_mem (by decide) (by decide) (by simp)
  have hsplit : pySplitWs (joinSpace [str "PRINT", v]) = [str "PRINT", v] := by
    refine pySplitWs_join _ ?_
    intro p hp
    simp at hp
    rcases hp with rfl | rfl
    · exact ⟨by decide, by decide⟩
    · exact ⟨hne, hcl⟩
  rw [hline]
  simp [interpStep, hprt, hsplit]

/-- C6 witness: the lookup rule applied at a memory holding `x = 5` and the
line `PRINT x` (found value appended), evaluated concretely. -/
theorem c6_witness :
    interpStep ([(str "x", PyVal.vint 5)], []) (str "PRINT " ++ str "x") =
      .ok ([(str "x", PyVal.vint 5)], [PyVal.vint 5]) := by
  have h := c6_print_lookup.1 [(str "x", PyVal.vint 5)] [] (str "x")
    (by decide) (by decide)
  simpa [memLookup] using h

/-! ## Claim C5 (corrected) -/
lemma isWordChar_not_ws {c : Char} (h : isWordChar c = true) : isPyWs c = false := by
  cases hc : isPyWs c with
  | false => rfl
  | true =>
    exfalso
    simp [isPyWs] at hc
    rcases hc with ((rfl | rfl) | rfl) | rfl <;> exact absurd h (by decide)

/-- C5, counterexample: the name `True` is never assigned, yet
`let y = True + 1;` yields `y = 2`, not `y = 0` — `eval` resolves `True`
as the Python keyword constant even with empty globals, so the claimed
store-zero policy does not hold for every never-assigned name. -/
theorem c5_counterexample :
    parse (tokenize (str "let y = True + 1;")) =
      .ok [.assign (str "y") (.binop (str "+") (.var (str "True")) (.num 1))] ∧
    run (generate_TAC
        [.assign (str "y") (.binop (str "+") (.var (str "True")) (.num 1))] 0).1 =
      .ok ([(str "t1", .vint 2), (str "y", .vint 2)], []) ∧
    memLookup [(str "t1", PyVal.vint 2), (str "y", PyVal.vint 2)] (str "y") =
      some (.vint 2) ∧ PyVal.vint 2 ≠ PyVal.vint 0 := by
  decide

/-- C5 as amended: evaluation errors are swallowed (the run never aborts,
zero is stored) and `let y = x + 1;` with `x` never assigned yields
`y = 0` for every identifier-shaped name except the Python keyword
constants `True`, `False` and `__debug__` — in particular also for
builtin names such as `abs`, whose lookup succeeds but whose arithmetic
raises a `TypeError` that the same policy converts to zero. -/
theorem c5_unassigned_name_zero (x : Str)
    (hid : identMatch x = true) (hw : ∀ c ∈ x, isWordChar c = true)
    (hdig : pyIsdigit x = false)
    (hT : x ≠ str "True") (hF : x ≠ str "False") (hD : x ≠ str "__debug__") :
    ∃ mem out,
      run (generate_TAC [.assign (str "y") (.binop (str "+") (.var x) (.num 1))] 0).1 =
        .ok (mem, out) ∧
      memLookup mem (str "y") = some (.vint 0) := by
  have hxne : x ≠ [] := by
    intro hc
    rw [hc] at hid
    simp [identMatch] at hid
  have hxcl : CleanTok x := ⟨hxne, fun c hc => isWordChar_not_ws (hw c hc)⟩
  have htac : (generate_TAC [.assign (str "y") (.binop (str "+") (.var x) (.num 1))] 0).1 =
      [renderLine (.compute 1 (.varOp x) (str "+") (.lit 1)),
       renderLine (.assignL (str "y") (.temp 1))] := by
    simp [generate_TAC, generate_TAC_expr, new_temp, renderLine, renderOp, joinSpace, str,
      List.append_assoc]
  have hEval : evalOr0 [] (joinSpace [x, str "+", natToStr 1]) = .vint 0 := by
    by_cases hN : x = str "None"
    · subst hN; decide
    · have hsplit : pySplitWs (joinSpace [x, str "+", natToStr 1]) =
          [x, str "+", natToStr 1] := by
        refine pySplitWs_join _ ?_
        intro p hp
        simp at hp
        rcases hp with rfl | rfl | rfl
        · exact hxcl
        · exact ⟨by decide, by decide⟩
        · exact cleanTok_natToStr 1
      have hkw : pyKeywordConst x = none := by
        simp [pyKeywordConst, hT, hF, hN, hD]
      have hv1 : evalAtom [] (natToStr 1) = .ok (.vint 1) := by decide
      by_cases hb : x ∈ pyBuiltinNames
      · have hatom : evalAtom [] x = .ok (.vobj x) := by
          simp [evalAtom, hdig, hkw, memLookup, hb]
        have harith : pyArith (str "+") (.vobj x) (.vint 1) = .error () := by
          rw [pyArith, if_neg (by decide), if_pos (by decide)]
          simp [asInt, asFrac]
        simp [evalOr0, pyEval, hsplit, hatom, hv1, harith]
      · have hatom : evalAtom [] x = .error () := by
          simp [evalAtom, hdig, hkw, memLookup, hb]
        simp [evalOr0, pyEval, hsplit, hatom]
  cases hpr : isInfixB (str "PRINT") (renderLine (.compute 1 (.varOp x) (str "+") (.lit 1))) with
  | false =>
    have heq : isInfixB (str "=") (renderLine (.compute 1 (.varOp x) (str "+") (.lit 1))) =
        true := by
      rw [renderLine]
      exact isInfixB_mem (by decide) (by decide) (by simp)
    have hfind : findSep (renderLine (.compute 1 (.varOp x) (str "+") (.lit 1))) =
        some (renderOp (.temp 1), joinSpace [x, str "+", natToStr 1]) := by
      rw [renderLine]
      simpa [renderOp] using
        findSep_computeLine (renderOp (.temp 1)) x (str "+") (natToStr 1) (cleanTok_temp 1)
    have hhas : hasSepB (joinSpace [x, str "+", natToStr 1]) = false :=
      hasSep_triple hxcl ⟨by decide, by decide⟩ (cleanTok_natToStr 1) (by decide)
    have hstep1 : interpStep ([], []) (renderLine (.compute 1 (.varOp x) (str "+") (.lit 1))) =
        .ok ([(renderOp (.temp 1), .vint 0)], []) := by
      simp [interpStep, heq, hpr, hfind, hhas, hEval, memSet]
    have htemp : renderOp (.temp 1) = str "t1" := by decide
    have hrest : runTac [renderLine (.assignL (str "y") (.temp 1))]
        ([(str "t1", PyVal.vint 0)], []) =
        .ok ([(str "t1", .vint 0), (str "y", .vint 0)], []) := by decide
    refine ⟨[(str "t1", .vint 0), (str "y", .vint 0)], [], ?_, by decide⟩
    rw [htac]
    show runTac _ ([], []) = _
    simp only [runTac, hstep1, exceptBindOk, htemp]
    exact hrest
  | true =>
    have hsplitL1 : pySplitWs (renderLine (.compute 1 (.varOp x) (str "+") (.lit 1))) =
        [renderOp (.temp 1), str "=", x, str "+", natToStr 1] := by
      rw [renderLine]
      simp only [renderOp]
      refine pySplitWs_join _ ?_
      intro p hp
      simp at hp
      rcases hp with rfl | rfl | rfl | rfl | rfl
      · exact cleanTok_temp 1
      · exact ⟨by decide, by decide⟩
      · exact hxcl
      · exact ⟨by decide, by decide⟩
      · exact cleanTok_natToStr 1
    have hstep1 : interpStep ([], []) (renderLine (.compute 1 (.varOp x) (str "+") (.lit 1))) =
        .ok ([], [.vint 0]) := by
      simp [interpStep, hpr, hsplitL1, memLookup]
    have hrest : runTac [renderLine (.assignL (str "y") (.temp 1))] ([], [PyVal.vint 0]) =
        .ok ([(str "y", .vint 0)], [.vint 0]) := by decide
    refine ⟨[(str "y", .vint 0)], [.vint 0], ?_, by decide⟩
    rw [htac]
    show runTac _ ([], []) = _
    simp only [runTac, hstep1, exceptBindOk]
    exact hrest

/-- C5 witness: the zero-store rule applied to the builtin name `abs`
(`let y = abs + 1;` with `abs` never assigned yields `y = 0`). -/
theorem c5_witness :
    ∃ mem out,
      run (generate_TAC
          [.assign (str "y") (.binop (str "+") (.var (str "abs")) (.num 1))] 0).1 =
        .ok (mem, out) ∧
      memLookup mem (str "y") = some (.vint 0) :=
  c5_unassigned_name_zero (str "abs") (by decide) (by decide) (by decide)
    (by decide) (by decide) (by decide)
